import Mathlib

/-!
Verification of the job-orchestration and transcript-validation core of the
heystak node spider backend.

The development shallowly embeds the relevant JavaScript sources:
* `src/analyzer/hookValidator.js` — transcript/hook validation (pure string
  algorithms, ported character-by-character over `List Char`);
* `src/analyzer/adAnalyzer.js` — the speech-presence filter
  (`_transcribeAudio` segment filtering and the `_analyzeVideo` transcript
  rejection gate), with JavaScript numbers modelled as rationals;
* `src/core/redis.js` — the `JobManager` job store, modelled as pure state
  transitions on a `Store` record whose components mirror the Redis hash
  (`spider:job:<id>`), the job index list (`spider:jobs`) and the work queue
  (`spider:queue`).  Redis `lPush` is list cons (head insertion), `rPop`
  removes the last element, `lRem key 0 v` removes every occurrence of `v`,
  `lRange 0 (limit-1)` is `List.take limit`, and `hSet` overwrites the value
  stored under a key.

JavaScript strings are modelled through their character lists (`String.data`);
the inputs of interest are ASCII, where JavaScript UTF-16 code-unit semantics
and `List Char` semantics agree.
-/

/-! ## Character and string helpers (hookValidator.js / adAnalyzer.js) -/

/-- JavaScript `\s` whitespace, restricted to the ASCII whitespace characters
that can occur in the data handled by the validator. -/
def isWS (c : Char) : Bool := c = ' ' || c = '\t' || c = '\n' || c = '\r'

/-- Strip leading and trailing whitespace: JavaScript `String.prototype.trim`. -/
def trimL (l : List Char) : List Char :=
  ((l.dropWhile (fun c => isWS c)).reverse.dropWhile (fun c => isWS c)).reverse

/-- One pass of `replace(/\s+/g, " ")`: every maximal run of whitespace
characters becomes a single space.  The `skip` flag records that the previous
character was part of a whitespace run already emitted as `' '`. -/
def collapseM : Bool → List Char → List Char
  | _, [] => []
  | skip, c :: rest =>
    if isWS c then
      (if skip then collapseM true rest else ' ' :: collapseM true rest)
    else c :: collapseM false rest

/-- `clean` from hookValidator.js:
`(text || "").trim().replace(/\s+/g, " ")` on the character list. -/
def cleanL (l : List Char) : List Char := collapseM false (trimL l)

/-- `clean` on strings. -/
def clean (s : String) : String := String.mk (cleanL s.data)

/-- JavaScript `s.split(" ")`: split at every single space character, keeping
empty pieces; the result is always non-empty (`"".split(" ")` is `[""]`). -/
def splitSpaceL : List Char → List (List Char)
  | [] => [[]]
  | c :: rest =>
    match splitSpaceL rest with
    | [] => [[c]]
    | w :: ws => if c = ' ' then [] :: w :: ws else (c :: w) :: ws

/-- JavaScript `arr.join(" ")` for a list of character lists. -/
def joinSpaceL : List (List Char) → List Char
  | [] => []
  | [w] => w
  | w :: ws => w ++ ' ' :: joinSpaceL ws

/-- `firstNWords` from hookValidator.js on character lists:
`clean(transcript).split(" ").slice(0, n).join(" ")`. -/
def firstNWordsL (l : List Char) (n : Nat) : List Char :=
  joinSpaceL ((splitSpaceL (cleanL l)).take n)

/-- `firstNWords(transcript, n)` on strings. -/
def firstNWords (s : String) (n : Nat) : String := String.mk (firstNWordsL s.data n)

/-- JavaScript `toLowerCase` on the character list (ASCII case mapping). -/
def lowerL (l : List Char) : List Char := l.map Char.toLower

/-- Boolean string-starts-with on character lists. -/
def startsWithL : List Char → List Char → Bool
  | [], _ => true
  | _ :: _, [] => false
  | a :: as, b :: bs => a = b && startsWithL as bs

/-- JavaScript `hay.includes(needle)`: `needle` occurs contiguously in `hay`. -/
def containsL (needle : List Char) (hay : List Char) : Bool :=
  startsWithL needle hay ||
    match hay with
    | [] => false
    | _ :: t => containsL needle t

/-- The character bigrams of a string, in order (JS loop
`for i in 0 .. length-2: substring(i, i+2)`). -/
def bigrams (l : List Char) : List (Char × Char) := l.zip (l.drop 1)

/-- Remove the first occurrence of `b` (one decrement of the JS count map). -/
def eraseFirst : List (Char × Char) → (Char × Char) → List (Char × Char)
  | [], _ => []
  | x :: xs, b => if x = b then xs else x :: eraseFirst xs b

/-- The bigram-multiset intersection size, computed exactly as the JS loop in
`similarity` does: a count map is built from `A`, then each bigram of `B`
consumes one remaining occurrence if available. -/
def interCount : List (Char × Char) → List (Char × Char) → Nat
  | _, [] => 0
  | A, b :: bs =>
    if A.contains b then 1 + interCount (eraseFirst A b) bs else interCount A bs

/-- `similarity(a, b)` from hookValidator.js: Dice-coefficient bigram
similarity of the cleaned, lowercased strings. -/
def similarity (a b : String) : ℚ :=
  let cleanA := lowerL (cleanL a.data)
  let cleanB := lowerL (cleanL b.data)
  if cleanA = cleanB then 1
  else if cleanA.length < 2 || cleanB.length < 2 then 0
  else (2 * interCount (bigrams cleanA) (bigrams cleanB) : ℚ) /
    ((cleanA.length - 1 : Nat) + ((cleanB.length - 1 : Nat) : ℚ))

/-- `isSubstringOfStart(hook, transcript)` from hookValidator.js:
the cleaned lowercased hook occurs inside the lowercased first 25 words. -/
def isSubstringOfStart (hook transcript : String) : Bool :=
  containsL (lowerL (cleanL hook.data)) (lowerL (firstNWordsL transcript.data 25))

/-- Sentence terminators recognised by the regex `[.!?]`. -/
def isPunct (c : Char) : Bool := c = '.' || c = '!' || c = '?'

/-- Helper: is the remainder empty, or does it start with whitespace
(the `(?:\s|$)` part of the regex)? -/
def restBoundary : List Char → Bool
  | [] => true
  | c :: _ => isWS c

/-- Scan for the regex `^(.+?[.!?])(?:\s|$)` on a cleaned string (cleaned
strings contain no newline, so `.` matches every character): the shortest
prefix of length at least 2 ending in a terminator that is followed by
whitespace or the end of the string.  `acc` holds the reversed prefix
consumed so far; a match needs at least one character before the
terminator (`.+?`), hence the `!acc.isEmpty` test. -/
def sentScan : List Char → List Char → Option (List Char)
  | _, [] => none
  | acc, c :: rest =>
    if isPunct c && !acc.isEmpty && restBoundary rest then some (c :: acc).reverse
    else sentScan (c :: acc) rest

/-- `firstSentence(transcript)` from hookValidator.js:
`t.match(/^(.+?[.!?])(?:\s|$)/)` and `match[1].trim()`, falling back to
`firstNWords(t)` (12 words) when the regex does not match. -/
def firstSentence (transcript : String) : String :=
  let t := cleanL transcript.data
  match sentScan [] t with
  | some s => String.mk (trimL s)
  | none => firstNWords (String.mk t) 12

/-- The result record of `validateHook` (the `reason` strings of the JS
module are observability text and are not modelled). -/
structure HookResult where
  hook : Option String
  source : String
  score : ℚ
deriving Repr, DecidableEq

/-- The `SIMILARITY_THRESHOLD` constant (0.6). -/
def simThreshold : ℚ := 6/10

/-- The branch of `validateHook` that examines a provided GPT hook (already
cleaned, non-empty): `some` result on acceptance, `none` on rejection. -/
def gptCheck (g t : String) : Option HookResult :=
  if isSubstringOfStart g t then
    some { hook := some g, source := "gpt", score := similarity g (firstNWords t 15) }
  else if similarity g (firstNWords t 15) ≥ simThreshold then
    some { hook := some g, source := "gpt", score := similarity g (firstNWords t 15) }
  else none

/-- The fallback chain of `validateHook` (steps 2 and 3 of the JS function),
applied to the cleaned transcript. -/
def hookFallback (t : String) : HookResult :=
  if 5 ≤ (splitSpaceL (firstSentence t).data).length ∧
      (splitSpaceL (firstSentence t).data).length ≤ 25 then
    { hook := some (firstSentence t), source := "first_sentence", score := 1 }
  else if firstNWords t 12 ≠ "" then
    { hook := some (firstNWords t 12), source := "first_n_words", score := 1 }
  else
    { hook := none, source := "none", score := 0 }

/-- `validateHook(gptHook, transcript)` from hookValidator.js.  A `none`
candidate models JS `null`; a `some ""` candidate is falsy in JS
(`gptHook && clean(gptHook).length > 0`) and is treated like `null`. -/
def validateHook (gptHook : Option String) (transcript : String) : HookResult :=
  let t := clean transcript
  if t = "" then { hook := none, source := "none", score := 0 }
  else
    match gptHook with
    | none => hookFallback t
    | some g0 =>
      let g := clean g0
      if g = "" then hookFallback t
      else
        match gptCheck g t with
        | some r => r
        | none => hookFallback t

/-! ## Speech-presence filter (adAnalyzer.js) -/

/-- A Whisper transcription segment: its `no_speech_prob` score (a JS float,
modelled as a rational) and its text. -/
structure Segment where
  no_speech_prob : ℚ
  text : String
deriving Repr, DecidableEq

/-- Mean `no_speech_prob` across all segments
(`segments.reduce((sum, seg) => sum + seg.no_speech_prob, 0) / segments.length`). -/
def avgNoSpeechProb (segs : List Segment) : ℚ :=
  (segs.map (fun sg => sg.no_speech_prob)).sum / segs.length

/-- The retained segments: `segments.filter(seg => seg.no_speech_prob < 0.7)`. -/
def speechSegments (segs : List Segment) : List Segment :=
  segs.filter (fun sg => sg.no_speech_prob < 7/10)

/-- The text reconstructed from the retained segments:
`speechSegments.map(seg => seg.text).join(" ").trim()`. -/
def reconText (segs : List Segment) : List Char :=
  trimL (joinSpaceL ((speechSegments segs).map (fun sg => sg.text.data)))

/-- The segment-level part of `_transcribeAudio`: `none` models the JS
function returning `null` (no segments, high mean no-speech probability, or
no segment surviving the 0.7 filter); otherwise the reconstructed text. -/
def transcribeGate (segs : List Segment) : Option String :=
  if segs = [] then none
  else if avgNoSpeechProb segs > 1/2 then none
  else if speechSegments segs = [] then none
  else some (String.mk (reconText segs))

/-- The fixed boilerplate phrase list of `_analyzeVideo`. -/
def garbagePhrases : List String :=
  ["thank you for watching", "thanks for watching", "subscribe",
   "like and subscribe", "click the link", "link in bio", "sign up now",
   "please sign up", "caught on camera", "psychic reading",
   "follow for more", "link in description"]

/-- JavaScript `s.split(/\s+/)`: split at maximal whitespace runs, keeping an
empty piece for a leading or trailing run (`"".split(/\s+/)` is `[""]`). -/
def splitWSRuns : List Char → List (List Char)
  | [] => [[]]
  | c :: rest =>
    match splitWSRuns rest, rest with
    | [], _ => [[c]]
    | w :: ws, [] => if isWS c then [] :: w :: ws else (c :: w) :: ws
    | w :: ws, d :: _ =>
      if isWS c then (if isWS d then w :: ws else [] :: w :: ws)
      else (c :: w) :: ws

/-- `wordCount` of `_analyzeVideo`:
`trimmed.split(/\s+/).filter(w => w.length > 0).length`. -/
def wordCountJS (l : List Char) : Nat :=
  ((splitWSRuns l).filter (fun w => !w.isEmpty)).length

/-- The number of distinct words (`new Set(words).size`). -/
def uniqCount : List (List Char) → Nat
  | [] => 0
  | w :: ws => (if w ∈ ws then 0 else 1) + uniqCount ws

/-- The `too_short` condition: fewer than 100 characters or fewer than 15
words. -/
def tooShortC (l : List Char) : Bool :=
  l.length < 100 || wordCountJS l < 15

/-- The `garbage_phrase` condition: some boilerplate phrase occurs in the
lowercased transcript. -/
def garbageC (l : List Char) : Bool :=
  garbagePhrases.any (fun p => containsL p.data (lowerL l))

/-- The `song_lyrics` condition: more than 5 words and a unique-word ratio
below one half (`words = lowerTranscript.split(/\s+/)`). -/
def lyricsC (l : List Char) : Bool :=
  let words := splitWSRuns (lowerL l)
  decide (5 < words.length) && decide ((uniqCount words : ℚ) / words.length < 1/2)

/-- The `gibberish` condition: the transcript starts with a digit run followed
by whitespace (`/^\d+\s/`), or contains more than 5 digit characters. -/
def gibberishC (l : List Char) : Bool :=
  (match l with
   | [] => false
   | c :: _ =>
     c.isDigit &&
       (match l.dropWhile (fun d => d.isDigit) with
        | [] => false
        | d :: _ => isWS d)) ||
  decide (5 < (l.filter (fun c => c.isDigit)).length)

/-- The rejection information `_analyzeVideo` computes from a transcription
result (`transcript?.trim() || ""`; `hasValidTranscript`; `rejectedReason`;
`has_speech` as stored in the returned `transcript_analysis`). -/
structure TranscriptGate where
  hasValidTranscript : Bool
  rejectedReason : Option String
  hasSpeech : Bool
deriving Repr, DecidableEq

/-- The transcript gate of `_analyzeVideo`: decides whether hook/persona
generation runs, and records the rejection reason. -/
def transcriptGate (transcript : Option String) : TranscriptGate :=
  let trimmed := match transcript with | none => [] | some t => trimL t.data
  let valid := decide (¬ trimmed.length < 100) && decide (¬ wordCountJS trimmed < 15) &&
    !garbageC trimmed && !lyricsC trimmed && !gibberishC trimmed
  let reason : Option String :=
    if trimmed.length < 100 || wordCountJS trimmed < 15 then some "too_short"
    else if garbageC trimmed then some "garbage_phrase"
    else if lyricsC trimmed then some "song_lyrics"
    else if gibberishC trimmed then some "gibberish"
    else none
  { hasValidTranscript := valid, rejectedReason := reason,
    hasSpeech := decide (0 < trimmed.length) }

/-- The full speech-presence decision: transcription segment filtering
followed by the transcript gate. -/
def speechGate (segs : List Segment) : TranscriptGate :=
  transcriptGate (transcribeGate segs)

/-! ## Job store (src/core/redis.js, class JobManager) -/

/-- The per-job progress counters. -/
structure Progress where
  scraped : Nat
  analyzed : Nat
  inserted : Nat
  pending : Nat
  failed : Nat
  total : Nat
deriving Repr, DecidableEq

/-- The job-creation spec (the fields `createJob` destructures from
`jobData`). -/
structure JobSpec where
  job_id : String
  url : String
  max_ads : Nat
  save_json : Bool
  save_db : Bool
  auto_analyze : Bool
  analysis_mode : String
  page_id : Option String
  start_date_formatted : Option String
  end_date_formatted : Option String
  period : Option String
deriving Repr, DecidableEq

/-- A job record, exactly the object literal built by `createJob`
(ISO timestamps modelled as natural clock values; the opaque `result`
payload modelled as an optional string). -/
structure Job where
  job_id : String
  url : String
  max_ads : Nat
  save_json : Bool
  save_db : Bool
  auto_analyze : Bool
  analysis_mode : String
  page_id : Option String
  start_date_formatted : Option String
  end_date_formatted : Option String
  period : Option String
  status : String
  progress : Progress
  result : Option String
  error : Option String
  message : Option String
  created_at : Nat
  started_at : Option Nat
  completed_at : Option Nat
deriving Repr, DecidableEq

/-- The Redis state used by `JobManager`: the job hash (`spider:job:<id>`,
one key per job id), the job index list (`spider:jobs`) and the work queue
(`spider:queue`), both with their head at the `lPush` end. -/
structure Store where
  jobs : List (String × Job)
  jobsList : List String
  queue : List String
deriving Repr, DecidableEq

/-- Key lookup in the job hash. -/
def lookupJob : List (String × Job) → String → Option Job
  | [], _ => none
  | (k, j) :: rest, id => if k = id then some j else lookupJob rest id

/-- `hSet` on the job hash: overwrite the value stored under `id`. -/
def hsetJob (l : List (String × Job)) (id : String) (j : Job) : List (String × Job) :=
  (id, j) :: l.filter (fun p => !(p.1 = id : Bool))

/-- `lRem key 0 v`: remove every occurrence of `v`. -/
def lremAll (l : List String) (id : String) : List String :=
  l.filter (fun x => !(x = id : Bool))

/-- The fresh job record `createJob` builds. -/
def mkJob (spec : JobSpec) (now : Nat) : Job :=
  { job_id := spec.job_id, url := spec.url, max_ads := spec.max_ads,
    save_json := spec.save_json, save_db := spec.save_db,
    auto_analyze := spec.auto_analyze, analysis_mode := spec.analysis_mode,
    page_id := spec.page_id, start_date_formatted := spec.start_date_formatted,
    end_date_formatted := spec.end_date_formatted, period := spec.period,
    status := "queued",
    progress := { scraped := 0, analyzed := 0, inserted := 0, pending := 0,
                  failed := 0, total := spec.max_ads },
    result := none, error := none, message := none,
    created_at := now, started_at := none, completed_at := none }

/-- `createJob`: store the record, `lPush` the id on the job index and on the
work queue, and return the record. -/
def createJob (s : Store) (spec : JobSpec) (now : Nat) : Store × Job :=
  let job := mkJob spec now
  ({ jobs := hsetJob s.jobs spec.job_id job,
     jobsList := spec.job_id :: s.jobsList,
     queue := spec.job_id :: s.queue }, job)

/-- `getJob`: fetch and deserialize, `none` if absent. -/
def getJob (s : Store) (id : String) : Option Job := lookupJob s.jobs id

/-- `getQueuedJob`: `rPop` from the work queue — remove and return the last
element (the oldest `lPush`ed id), or `none` when the queue is empty. -/
def getQueuedJob (s : Store) : Option String × Store :=
  match s.queue.getLast? with
  | none => (none, s)
  | some id => (some id, { s with queue := s.queue.dropLast })

/-- A partial job update, as passed to `updateJob` by its callers
(`Object.assign(job, updates)` over these keys). -/
structure JobUpdates where
  status : Option String := none
  started_at : Option Nat := none
  completed_at : Option Nat := none
  result : Option (Option String) := none
  error : Option (Option String) := none
deriving Repr, DecidableEq

/-- Merge a partial update into a job record. -/
def applyUpdates (j : Job) (u : JobUpdates) : Job :=
  { j with
    status := u.status.getD j.status,
    started_at := match u.started_at with | some v => some v | none => j.started_at,
    completed_at := match u.completed_at with | some v => some v | none => j.completed_at,
    result := u.result.getD j.result,
    error := u.error.getD j.error }

/-- `updateJob`: read-modify-write merge; `false` if the job is absent. -/
def updateJob (s : Store) (id : String) (u : JobUpdates) : Store × Bool :=
  match lookupJob s.jobs id with
  | none => (s, false)
  | some j => ({ s with jobs := hsetJob s.jobs id (applyUpdates j u) }, true)

/-- A partial progress update (`Object.assign(job.progress, progressUpdates)`
plus the optional `message` key that `updateProgress` also copies to the
job's top-level `message` field). -/
structure ProgressUpdates where
  scraped : Option Nat := none
  analyzed : Option Nat := none
  inserted : Option Nat := none
  pending : Option Nat := none
  failed : Option Nat := none
  total : Option Nat := none
  message : Option String := none
deriving Repr, DecidableEq

/-- Merge a partial progress update into the progress record. -/
def applyProgress (p : Progress) (u : ProgressUpdates) : Progress :=
  { scraped := u.scraped.getD p.scraped, analyzed := u.analyzed.getD p.analyzed,
    inserted := u.inserted.getD p.inserted, pending := u.pending.getD p.pending,
    failed := u.failed.getD p.failed, total := u.total.getD p.total }

/-- `updateProgress`: merge into the `progress` sub-record, and set the
top-level `message` when a message is provided (JS truthiness: an empty
string does not update it). -/
def updateProgress (s : Store) (id : String) (u : ProgressUpdates) : Store × Bool :=
  match lookupJob s.jobs id with
  | none => (s, false)
  | some j =>
    let j' := { j with
      progress := applyProgress j.progress u,
      message := match u.message with
        | some m => if m = "" then j.message else some m
        | none => j.message }
    ({ s with jobs := hsetJob s.jobs id j' }, true)

/-- `setRunning`. -/
def setRunning (s : Store) (id : String) (now : Nat) : Store × Bool :=
  updateJob s id { status := some "running", started_at := some now }

/-- `setCompleted`. -/
def setCompleted (s : Store) (id : String) (now : Nat) (result : Option String) :
    Store × Bool :=
  updateJob s id
    { status := some "completed", completed_at := some now, result := some result }

/-- `setFailed`. -/
def setFailed (s : Store) (id : String) (now : Nat) (error : String) : Store × Bool :=
  updateJob s id
    { status := some "failed", completed_at := some now, error := some (some error) }

/-- `getAllJobs(limit)`: `lRange(JOBS_KEY, 0, limit-1)` (the `limit` most
recently pushed ids, newest first), fetch each record, then `reverse()`. -/
def getAllJobs (s : Store) (limit : Nat) : List Job :=
  ((s.jobsList.take limit).filterMap (fun id => lookupJob s.jobs id)).reverse

/-- `cancelJob`: set `status := "cancelled"` through `updateJob` (no check of
the current status), then remove the id from the work queue. -/
def cancelJob (s : Store) (id : String) : Store :=
  let s' := (updateJob s id { status := some "cancelled" }).1
  { s' with queue := lremAll s'.queue id }

/-- `requeueJob`: reset status/error/progress and `lPush` the id back on the
work queue (unconditionally — there is no membership check). -/
def requeueJob (s : Store) (id : String) : Store × Bool :=
  match lookupJob s.jobs id with
  | none => (s, false)
  | some j =>
    let j' := { j with
      status := "queued", error := none,
      progress := { scraped := 0, analyzed := 0, inserted := 0, pending := 0,
                    failed := 0, total := j.max_ads } }
    ({ s with jobs := hsetJob s.jobs id j', queue := id :: s.queue }, true)

/-- `deleteJob`: remove the record and purge both lists. -/
def deleteJob (s : Store) (id : String) : Store :=
  { jobs := (s.jobs).filter (fun p => !(p.1 = id : Bool)),
    jobsList := lremAll s.jobsList id,
    queue := lremAll s.queue id }

/-- The aggregate statistics record of `getStats`. -/
structure Stats where
  total : Nat
  queued : Nat
  running : Nat
  completed : Nat
  failed : Nat
  cancelled : Nat
  total_scraped : Nat
  total_analyzed : Nat
  total_inserted : Nat
  total_pending : Nat
  total_failed : Nat
deriving Repr, DecidableEq

/-- The all-zero statistics record. -/
def zeroStats : Stats :=
  { total := 0, queued := 0, running := 0, completed := 0, failed := 0,
    cancelled := 0, total_scraped := 0, total_analyzed := 0,
    total_inserted := 0, total_pending := 0, total_failed := 0 }

/-- One iteration of the `getStats` loop: bump the matching status counter
(`stats.hasOwnProperty(status)`; every status a store operation can write is
one of the five below) and add the progress counters. -/
def statsStep (acc : Stats) (j : Job) : Stats :=
  let acc1 :=
    if j.status = "queued" then { acc with queued := acc.queued + 1 }
    else if j.status = "running" then { acc with running := acc.running + 1 }
    else if j.status = "completed" then { acc with completed := acc.completed + 1 }
    else if j.status = "failed" then { acc with failed := acc.failed + 1 }
    else if j.status = "cancelled" then { acc with cancelled := acc.cancelled + 1 }
    else acc
  { acc1 with
    total_scraped := acc1.total_scraped + j.progress.scraped,
    total_analyzed := acc1.total_analyzed + j.progress.analyzed,
    total_inserted := acc1.total_inserted + j.progress.inserted,
    total_pending := acc1.total_pending + j.progress.pending,
    total_failed := acc1.total_failed + j.progress.failed }

/-- `getStats` when the store is reachable: aggregate over
`getAllJobs()` — note the default `limit = 50`. -/
def getStats (s : Store) : Stats :=
  let jobs := getAllJobs s 50
  jobs.foldl statsStep { zeroStats with total := jobs.length }

/-- `getStats` including the connection check: a disconnected store yields
the all-zero record. -/
def getStatsOp (connected : Bool) (s : Store) : Stats :=
  if connected then getStats s else zeroStats

/-- `createJob` including the connection check (`null` when unreachable). -/
def createJobOp (connected : Bool) (s : Store) (spec : JobSpec) (now : Nat) :
    Option (Store × Job) :=
  if connected then some (createJob s spec now) else none

/-- The empty store. -/
def emptyStore : Store := { jobs := [], jobsList := [], queue := [] }

/-! ## Auxiliary definitions for the statements -/

/-- Every whitespace character of `l` is a plain space. -/
def okWS (l : List Char) : Bool := l.all (fun c => !isWS c || c = ' ')

/-- Is the head (if any) different from a plain space? -/
def headNotSpc : List Char → Bool
  | [] => true
  | c :: _ => !(c = ' ' : Bool)

/-- No two adjacent spaces. -/
def noDbl : List Char → Bool
  | a :: b :: r => !((a = ' ' : Bool) && (b = ' ' : Bool)) && noDbl (b :: r)
  | _ => true

/-- Is the head (if any) a non-whitespace character? -/
def headNotWS : List Char → Bool
  | [] => true
  | c :: _ => !isWS c

/-- Is the last character (if any) a non-whitespace character? -/
def lastNotWS : List Char → Bool
  | [] => true
  | [c] => !isWS c
  | _ :: c :: r => lastNotWS (c :: r)

/-- Whitespace-normal form: the shape of `clean`'s output — every whitespace
character is a single interior space. -/
def normalWS (l : List Char) : Bool :=
  okWS l && noDbl l && headNotWS l && lastNotWS l

/-- A word list is `good` when every word is non-empty and whitespace-free
(the shape of the pieces of a cleaned, non-empty string). -/
def goodWords (L : List (List Char)) : Prop :=
  ∀ w ∈ L, ¬w.isEmpty = true ∧ w.all (fun c => !isWS c) = true

/-- Modelled from the spec: the bigram Dice similarity of §4.3 step 4b —
`2×|intersection of character-bigram multisets| / (|bigrams(a)| + |bigrams(b)|)`
on the lowercased strings, `1` for exactly equal strings, `0` when either
string is shorter than 2 characters.  Stated with a true multiset
intersection, to be compared with the counting loop of `similarity`. -/
def specSimilarity (a b : String) : ℚ :=
  let la := lowerL a.data
  let lb := lowerL b.data
  if la = lb then 1
  else if la.length < 2 || lb.length < 2 then 0
  else (2 * ((Multiset.ofList (bigrams la)) ∩ (Multiset.ofList (bigrams lb))).card : ℚ) /
    ((bigrams la).length + ((bigrams lb).length : ℚ))

/-- Repeatedly claim queued jobs (at most `n` times), collecting the returned
ids in claim order. -/
def drainAux : Nat → Store → List String
  | 0, _ => []
  | n + 1, s =>
    match getQueuedJob s with
    | (none, _) => []
    | (some x, s') => x :: drainAux n s'

/-- Claim every queued job, in claim order. -/
def drainQueue (s : Store) : List String := drainAux s.queue.length s

/-- Every job record reachable from the job index (`spider:jobs`), newest
first — the "all known jobs" of the specification. -/
def allJobs (s : Store) : List Job :=
  s.jobsList.filterMap (fun id => lookupJob s.jobs id)

/-- Modelled from the spec: the aggregate statistics of §4.1 `computeStats`,
computed over all known jobs (per-status counts, total count, summed progress
counters).  To be compared with `getStats`, which reads the store through
`getAllJobs()` and its default `limit = 50`. -/
def specStats (s : Store) : Stats :=
  { total := (allJobs s).length,
    queued := (allJobs s).countP (fun j => j.status == "queued"),
    running := (allJobs s).countP (fun j => j.status == "running"),
    completed := (allJobs s).countP (fun j => j.status == "completed"),
    failed := (allJobs s).countP (fun j => j.status == "failed"),
    cancelled := (allJobs s).countP (fun j => j.status == "cancelled"),
    total_scraped := ((allJobs s).map (fun j => j.progress.scraped)).sum,
    total_analyzed := ((allJobs s).map (fun j => j.progress.analyzed)).sum,
    total_inserted := ((allJobs s).map (fun j => j.progress.inserted)).sum,
    total_pending := ((allJobs s).map (fun j => j.progress.pending)).sum,
    total_failed := ((allJobs s).map (fun j => j.progress.failed)).sum }

/-- A concrete job spec used by the concrete instances below. -/
def mkSpec (id : String) : JobSpec :=
  { job_id := id, url := "https://example.com", max_ads := 5, save_json := true,
    save_db := true, auto_analyze := true, analysis_mode := "balanced",
    page_id := none, start_date_formatted := none, end_date_formatted := none,
    period := none }

/-- A store holding one claimed (running) job `"j1"`. -/
def runStore : Store := (setRunning (createJob emptyStore (mkSpec "j1") 0).1 "j1" 1).1

/-- A store holding two jobs, `"a"` created before `"b"`. -/
def twoStore : Store :=
  (createJob (createJob emptyStore (mkSpec "a") 0).1 (mkSpec "b") 1).1

/-- A store where the still-queued job `"j1"` has been requeued. -/
def dupStore : Store := (requeueJob (createJob emptyStore (mkSpec "j1") 0).1 "j1").1

/-- The `n`-th distinct job id of the 51-job store. -/
def cId (n : Nat) : String := String.mk (List.replicate (n + 1) 'a')

/-- A store holding 51 jobs, each with `max_ads = 5` (so `progress.total = 5`
and 51 known jobs in the index). -/
def bigStore : Store :=
  (List.range 51).foldl (fun s n => (createJob s (mkSpec (cId n)) n).1) emptyStore

/-- A concrete one-segment transcription used by the speech-filter witness. -/
def c6segs : List Segment := [{ no_speech_prob := 0, text := "short" }]

/-! ## Whitespace normal form: properties of `trimL` and `collapseM` -/

theorem collapseM_false_ws {c : Char} (h : isWS c = true) (rest : List Char) :
    collapseM false (c :: rest) = ' ' :: collapseM true rest := by
  simp [collapseM, h]

theorem collapseM_true_ws {c : Char} (h : isWS c = true) (rest : List Char) :
    collapseM true (c :: rest) = collapseM true rest := by
  simp [collapseM, h]

theorem collapseM_not_ws {c : Char} (h : isWS c = false) (m : Bool) (rest : List Char) :
    collapseM m (c :: rest) = c :: collapseM false rest := by
  simp [collapseM, h]

theorem ne_space_of_not_ws {c : Char} (h : isWS c = false) : ¬(c = ' ') := by
  intro hc; subst hc; simp [isWS] at h

theorem headNotSpc_of_headNotWS {l : List Char} (h : headNotWS l = true) :
    headNotSpc l = true := by
  cases l with
  | nil => rfl
  | cons c r =>
    simp only [headNotWS, Bool.not_eq_true'] at h
    simp [headNotSpc, ne_space_of_not_ws h]

theorem noDbl_cons (c : Char) (X : List Char) :
    noDbl (c :: X) = (((!(c = ' ' : Bool)) || headNotSpc X) && noDbl X) := by
  cases X with
  | nil => simp [noDbl, headNotSpc]
  | cons y r => simp [noDbl, headNotSpc, Bool.not_and]

theorem noDbl_tail {c : Char} {X : List Char} (h : noDbl (c :: X) = true) :
    noDbl X = true := by
  rw [noDbl_cons] at h
  simp only [Bool.and_eq_true] at h
  exact h.2

theorem lastNotWS_cons_ne {c : Char} {X : List Char} (hX : X ≠ []) :
    lastNotWS (c :: X) = lastNotWS X := by
  cases X with
  | nil => exact absurd rfl hX
  | cons y r => rfl

theorem collapseM_ne_nil : ∀ (l : List Char) (m : Bool), l ≠ [] → lastNotWS l = true →
    collapseM m l ≠ [] := by
  intro l
  induction l with
  | nil => intro m h _; exact absurd rfl h
  | cons c rest ih =>
    intro m _ hlast
    by_cases hc : isWS c = true
    · have hrest : rest ≠ [] := by
        intro he; subst he
        simp only [lastNotWS, hc, Bool.not_true] at hlast
        exact Bool.false_ne_true hlast
      have hlr : lastNotWS rest = true := by
        rw [lastNotWS_cons_ne hrest] at hlast; exact hlast
      cases m with
      | true => rw [collapseM_true_ws hc]; exact ih true hrest hlr
      | false => rw [collapseM_false_ws hc]; simp
    · rw [collapseM_not_ws (by simpa using hc)]; simp

theorem okWS_collapseM : ∀ (l : List Char) (m : Bool), okWS (collapseM m l) = true := by
  intro l
  induction l with
  | nil => intro m; rfl
  | cons c rest ih =>
    intro m
    by_cases hc : isWS c = true
    · cases m with
      | true => rw [collapseM_true_ws hc]; exact ih true
      | false =>
        rw [collapseM_false_ws hc]
        simpa [okWS] using ih true
    · rw [collapseM_not_ws (by simpa using hc)]
      simp only [okWS, List.all_cons, hc]
      simpa [okWS] using ih false

theorem headNotWS_collapseM_true : ∀ l : List Char, headNotWS (collapseM true l) = true := by
  intro l
  induction l with
  | nil => rfl
  | cons c rest ih =>
    by_cases hc : isWS c = true
    · rw [collapseM_true_ws hc]; exact ih
    · rw [collapseM_not_ws (by simpa using hc)]
      simpa [headNotWS] using hc

theorem noDbl_collapseM : ∀ (l : List Char) (m : Bool), noDbl (collapseM m l) = true := by
  intro l
  induction l with
  | nil => intro m; rfl
  | cons c rest ih =>
    intro m
    by_cases hc : isWS c = true
    · cases m with
      | true => rw [collapseM_true_ws hc]; exact ih true
      | false =>
        rw [collapseM_false_ws hc, noDbl_cons]
        have h1 := headNotSpc_of_headNotWS (headNotWS_collapseM_true rest)
        simp [h1, ih true]
    · rw [collapseM_not_ws (by simpa using hc), noDbl_cons]
      have hcs : ¬(c = ' ') := ne_space_of_not_ws (by simpa using hc)
      simp [hcs, ih false]

theorem lastNotWS_collapseM : ∀ (l : List Char) (m : Bool), lastNotWS l = true →
    lastNotWS (collapseM m l) = true := by
  intro l
  induction l with
  | nil => intro m _; rfl
  | cons c rest ih =>
    intro m hlast
    rcases eq_or_ne rest [] with hrest | hrne
    · subst hrest
      have hc : isWS c = false := by
        simpa [lastNotWS] using hlast
      rw [collapseM_not_ws hc]
      simpa [collapseM, lastNotWS] using hc
    · have hlr : lastNotWS rest = true := by
        rw [lastNotWS_cons_ne hrne] at hlast; exact hlast
      by_cases hc : isWS c = true
      · cases m with
        | true => rw [collapseM_true_ws hc]; exact ih true hlr
        | false =>
          rw [collapseM_false_ws hc]
          have hne := collapseM_ne_nil rest true hrne hlr
          rw [lastNotWS_cons_ne hne]
          exact ih true hlr
      · rw [collapseM_not_ws (by simpa using hc)]
        by_cases hcoll : collapseM false rest = []
        · rw [hcoll]
          simpa [lastNotWS] using hc
        · rw [lastNotWS_cons_ne hcoll]
          exact ih false hlr

theorem headNotWS_dropWhileWS : ∀ l : List Char,
    headNotWS (l.dropWhile (fun c => isWS c)) = true := by
  intro l
  induction l with
  | nil => rfl
  | cons c rest ih =>
    by_cases hc : isWS c = true
    · simpa [List.dropWhile, hc] using ih
    · simp [List.dropWhile, hc, headNotWS]

theorem lastNotWS_append_singleton : ∀ (q : List Char) (x : Char),
    lastNotWS (q ++ [x]) = !isWS x := by
  intro q x
  induction q with
  | nil => rfl
  | cons a q' ih =>
    have : q' ++ [x] ≠ [] := by simp
    rw [List.cons_append, lastNotWS_cons_ne this, ih]

theorem lastNotWS_reverse (l : List Char) : lastNotWS l.reverse = headNotWS l := by
  cases l with
  | nil => rfl
  | cons c r =>
    rw [List.reverse_cons, lastNotWS_append_singleton]
    rfl

theorem headNotWS_reverse (l : List Char) : headNotWS l.reverse = lastNotWS l := by
  have h := lastNotWS_reverse l.reverse
  rw [List.reverse_reverse] at h
  exact h.symm

theorem lastNotWS_dropWhileWS : ∀ l : List Char, lastNotWS l = true →
    lastNotWS (l.dropWhile (fun c => isWS c)) = true := by
  intro l
  induction l with
  | nil => intro _; rfl
  | cons c rest ih =>
    intro hlast
    by_cases hc : isWS c = true
    · have hrne : rest ≠ [] := by
        intro he; subst he
        simp [lastNotWS, hc] at hlast
      have hlr : lastNotWS rest = true := by
        rw [lastNotWS_cons_ne hrne] at hlast; exact hlast
      simpa [List.dropWhile, hc] using ih hlr
    · simpa [List.dropWhile, hc] using hlast

theorem headNotWS_trimL (l : List Char) : headNotWS (trimL l) = true := by
  unfold trimL
  rw [headNotWS_reverse]
  apply lastNotWS_dropWhileWS
  rw [lastNotWS_reverse]
  exact headNotWS_dropWhileWS l

theorem lastNotWS_trimL (l : List Char) : lastNotWS (trimL l) = true := by
  unfold trimL
  rw [lastNotWS_reverse]
  exact headNotWS_dropWhileWS _

theorem headNotWS_collapseM_false {l : List Char} (h : headNotWS l = true) :
    headNotWS (collapseM false l) = true := by
  cases l with
  | nil => rfl
  | cons c rest =>
    have hc : isWS c = false := by simpa [headNotWS] using h
    rw [collapseM_not_ws hc]
    simpa [headNotWS] using hc

theorem cleanL_normal (l : List Char) : normalWS (cleanL l) = true := by
  unfold normalWS cleanL
  simp only [Bool.and_eq_true]
  refine ⟨⟨⟨okWS_collapseM _ _, noDbl_collapseM _ _⟩, ?_⟩, ?_⟩
  · exact headNotWS_collapseM_false (headNotWS_trimL l)
  · exact lastNotWS_collapseM _ _ (lastNotWS_trimL l)

theorem dropWhileWS_of_headNotWS {l : List Char} (h : headNotWS l = true) :
    l.dropWhile (fun c => isWS c) = l := by
  cases l with
  | nil => rfl
  | cons c rest =>
    have hc : isWS c = false := by simpa [headNotWS] using h
    simp [List.dropWhile, hc]

theorem trimL_of_ends {l : List Char} (h1 : headNotWS l = true)
    (h2 : lastNotWS l = true) : trimL l = l := by
  unfold trimL
  rw [dropWhileWS_of_headNotWS h1]
  rw [dropWhileWS_of_headNotWS (by rw [headNotWS_reverse]; exact h2)]
  exact List.reverse_reverse l

theorem trimL_idem (l : List Char) : trimL (trimL l) = trimL l :=
  trimL_of_ends (headNotWS_trimL l) (lastNotWS_trimL l)

theorem okWS_tail {c : Char} {l : List Char} (h : okWS (c :: l) = true) :
    okWS l = true := by
  simp only [okWS, List.all_cons, Bool.and_eq_true] at h
  exact h.2

theorem collapseM_id : ∀ (n : Nat) (l : List Char), l.length ≤ n →
    okWS l = true → noDbl l = true → lastNotWS l = true → headNotWS l = true →
    (collapseM false l = l ∧ collapseM true l = l) := by
  intro n
  induction n with
  | zero =>
    intro l hn _ _ _ _
    have : l = [] := List.eq_nil_of_length_eq_zero (Nat.le_zero.mp hn)
    subst this; exact ⟨rfl, rfl⟩
  | succ n ih =>
    intro l hn hok hdbl hlast hhead
    cases l with
    | nil => exact ⟨rfl, rfl⟩
    | cons c rest =>
      have hc : isWS c = false := by simpa [headNotWS] using hhead
      rw [collapseM_not_ws hc, collapseM_not_ws hc]
      have hrec : collapseM false rest = rest := by
        cases rest with
        | nil => rfl
        | cons d r2 =>
          by_cases hd : isWS d = true
          · -- from okWS, d must be a space
            have hdsp : d = ' ' := by
              simp only [okWS, List.all_cons, Bool.and_eq_true] at hok
              rcases hok with ⟨_, hd2, _⟩
              rw [Bool.or_eq_true] at hd2
              rcases hd2 with h | h
              · rw [hd] at h; exact absurd h (by simp)
              · simpa using h
            subst hdsp
            rw [collapseM_false_ws (by simp [isWS])]
            have hdbl2 : noDbl (' ' :: r2) = true := noDbl_tail hdbl
            have hspc : headNotSpc r2 = true := by
              rw [noDbl_cons] at hdbl2
              simp only [Bool.and_eq_true, Bool.or_eq_true] at hdbl2
              rcases hdbl2.1 with h | h
              · simp at h
              · exact h
            have hok2 : okWS r2 = true := okWS_tail (okWS_tail hok)
            have hhead2 : headNotWS r2 = true := by
              cases r2 with
              | nil => rfl
              | cons e r3 =>
                have he : ¬(e = ' ') := by simpa [headNotSpc] using hspc
                simp only [okWS, List.all_cons, Bool.and_eq_true] at hok2
                have h1 := hok2.1
                rw [Bool.or_eq_true] at h1
                rcases h1 with h | h
                · simpa [headNotWS] using h
                · exact absurd (by simpa using h) he
            have hr2ne : r2 ≠ [] := by
              intro he; subst he
              have h2 : lastNotWS [c, ' '] = true := hlast
              simp [lastNotWS, isWS] at h2
            have hlast2 : lastNotWS r2 = true := by
              have h1 : lastNotWS (' ' :: r2) = true := by
                rw [lastNotWS_cons_ne (by simp : (' ' :: r2 : List Char) ≠ [])] at hlast
                exact hlast
              rw [lastNotWS_cons_ne hr2ne] at h1
              exact h1
            have hlen : r2.length ≤ n := by
              simp only [List.length_cons] at hn; omega
            have hres := (ih r2 hlen hok2 (noDbl_tail hdbl2) hlast2 hhead2).2
            rw [hres]
          · -- rest starts with a non-whitespace character: recurse directly
            have hrne : (d :: r2 : List Char) ≠ [] := by simp
            have hlen : (d :: r2).length ≤ n := by
              simp only [List.length_cons] at hn ⊢; omega
            have hlast2 : lastNotWS (d :: r2) = true := by
              rw [lastNotWS_cons_ne hrne] at hlast; exact hlast
            have hres := (ih (d :: r2) hlen (okWS_tail hok) (noDbl_tail hdbl)
              hlast2 (by simpa [headNotWS] using hd)).1
            rw [hres]
      rw [hrec]
      exact ⟨rfl, rfl⟩

theorem cleanL_of_normal {l : List Char} (h : normalWS l = true) : cleanL l = l := by
  unfold normalWS at h
  simp only [Bool.and_eq_true] at h
  rcases h with ⟨⟨⟨hok, hdbl⟩, hhead⟩, hlast⟩
  unfold cleanL
  rw [trimL_of_ends hhead hlast]
  exact (collapseM_id l.length l (Nat.le_refl _) hok hdbl hlast hhead).1

theorem cleanL_idem (l : List Char) : cleanL (cleanL l) = cleanL l :=
  cleanL_of_normal (cleanL_normal l)

/-! ## Word structure of cleaned strings -/

theorem splitSpaceL_ne_nil : ∀ l : List Char, splitSpaceL l ≠ [] := by
  intro l
  cases l with
  | nil => simp [splitSpaceL]
  | cons c rest =>
    simp only [splitSpaceL]
    cases splitSpaceL rest with
    | nil => simp
    | cons w ws =>
      by_cases hc : c = ' ' <;> simp [hc]

theorem splitSpace_cons_space (r : List Char) :
    splitSpaceL (' ' :: r) = [] :: splitSpaceL r := by
  cases e : splitSpaceL r with
  | nil => exact absurd e (splitSpaceL_ne_nil r)
  | cons w ws => simp [splitSpaceL, e]

theorem splitSpace_cons_not {c : Char} (hc : ¬(c = ' ')) (r : List Char)
    {w : List Char} {ws : List (List Char)} (e : splitSpaceL r = w :: ws) :
    splitSpaceL (c :: r) = (c :: w) :: ws := by
  simp [splitSpaceL, e, hc]

theorem join_split_id : ∀ l : List Char, joinSpaceL (splitSpaceL l) = l := by
  intro l
  induction l with
  | nil => rfl
  | cons c rest ih =>
    cases e : splitSpaceL rest with
    | nil => exact absurd e (splitSpaceL_ne_nil rest)
    | cons w ws =>
      rw [e] at ih
      by_cases hc : c = ' '
      · subst hc
        rw [splitSpace_cons_space, e]
        show ([] : List Char) ++ ' ' :: joinSpaceL (w :: ws) = ' ' :: rest
        rw [ih]
        rfl
      · rw [splitSpace_cons_not hc rest e]
        cases ws with
        | nil =>
          show c :: w = c :: rest
          simpa [joinSpaceL] using ih
        | cons x xs =>
          show (c :: w) ++ ' ' :: joinSpaceL (x :: xs) = c :: rest
          rw [List.cons_append]
          exact congrArg (List.cons c) (by simpa [joinSpaceL] using ih)

theorem headNotWS_of_all {w : List Char} (h : w.all (fun c => !isWS c) = true) :
    headNotWS w = true := by
  cases w with
  | nil => rfl
  | cons c r =>
    simp only [List.all_cons, Bool.and_eq_true] at h
    simpa [headNotWS] using h.1

theorem headNotWS_after_space {r : List Char} (hok : okWS r = true)
    (hspc : headNotSpc r = true) : headNotWS r = true := by
  cases r with
  | nil => rfl
  | cons e r3 =>
    have he : ¬(e = ' ') := by simpa [headNotSpc] using hspc
    simp only [okWS, List.all_cons, Bool.and_eq_true] at hok
    have h1 := hok.1
    rw [Bool.or_eq_true] at h1
    rcases h1 with h | h
    · simpa [headNotWS] using h
    · exact absurd (by simpa using h) he

theorem splitSpace_good : ∀ (n : Nat) (l : List Char), l.length ≤ n →
    okWS l = true → noDbl l = true → lastNotWS l = true → headNotWS l = true →
    l ≠ [] → goodWords (splitSpaceL l) := by
  intro n
  induction n with
  | zero =>
    intro l hn _ _ _ _ hne
    exact absurd (List.eq_nil_of_length_eq_zero (Nat.le_zero.mp hn)) hne
  | succ n ih =>
    intro l hn hok hdbl hlast hhead hne
    cases l with
    | nil => exact absurd rfl hne
    | cons c rest =>
      have hc : isWS c = false := by simpa [headNotWS] using hhead
      have hcs : ¬(c = ' ') := ne_space_of_not_ws hc
      cases rest with
      | nil =>
        intro w hw
        rw [splitSpace_cons_not hcs [] rfl] at hw
        simp only [List.mem_singleton] at hw
        subst hw
        simp [hc]
      | cons d r2 =>
        by_cases hd : isWS d = true
        · -- d is whitespace, hence a space (okWS)
          have hdsp : d = ' ' := by
            simp only [okWS, List.all_cons, Bool.and_eq_true] at hok
            have h1 := hok.2.1
            rw [Bool.or_eq_true] at h1
            rcases h1 with h | h
            · rw [hd] at h; exact absurd h (by simp)
            · simpa using h
          subst hdsp
          rw [splitSpace_cons_not hcs _ (splitSpace_cons_space r2)]
          have hdbl2 : noDbl (' ' :: r2) = true := noDbl_tail hdbl
          have hspc : headNotSpc r2 = true := by
            rw [noDbl_cons] at hdbl2
            simp only [Bool.and_eq_true, Bool.or_eq_true] at hdbl2
            rcases hdbl2.1 with h | h
            · simp at h
            · exact h
          have hok2 : okWS r2 = true := okWS_tail (okWS_tail hok)
          have hr2ne : r2 ≠ [] := by
            intro he; subst he
            have h2 : lastNotWS [c, ' '] = true := hlast
            simp [lastNotWS, isWS] at h2
          have hlast2 : lastNotWS r2 = true := by
            have h1 : lastNotWS (' ' :: r2) = true := by
              rw [lastNotWS_cons_ne (by simp : (' ' :: r2 : List Char) ≠ [])] at hlast
              exact hlast
            rw [lastNotWS_cons_ne hr2ne] at h1
            exact h1
          have hlen : r2.length ≤ n := by
            simp only [List.length_cons] at hn; omega
          have hgood := ih r2 hlen hok2 (noDbl_tail hdbl2) hlast2
            (headNotWS_after_space hok2 hspc) hr2ne
          intro w hw
          simp only [List.mem_cons] at hw
          rcases hw with hw | hw
          · subst hw; simp [hc]
          · exact hgood w hw
        · -- d is not whitespace: recurse on rest
          cases e : splitSpaceL (d :: r2) with
          | nil => exact absurd e (splitSpaceL_ne_nil _)
          | cons w0 ws0 =>
            rw [splitSpace_cons_not hcs _ e]
            have hrne : (d :: r2 : List Char) ≠ [] := by simp
            have hlen : (d :: r2).length ≤ n := by
              simp only [List.length_cons] at hn ⊢; omega
            have hlast2 : lastNotWS (d :: r2) = true := by
              rw [lastNotWS_cons_ne hrne] at hlast; exact hlast
            have hgood := ih (d :: r2) hlen (okWS_tail hok) (noDbl_tail hdbl)
              hlast2 (by simpa [headNotWS] using hd) hrne
            rw [e] at hgood
            intro w hw
            simp only [List.mem_cons] at hw
            rcases hw with hw | hw
            · subst hw
              have hw0 := hgood w0 (List.mem_cons_self _ _)
              refine ⟨by simp, ?_⟩
              simp only [List.all_cons, Bool.and_eq_true]
              exact ⟨by simpa using hc, hw0.2⟩
            · exact hgood w (List.mem_cons_of_mem _ hw)

theorem goodWords_take {L : List (List Char)} (h : goodWords L) (n : Nat) :
    goodWords (L.take n) :=
  fun w hw => h w (List.mem_of_mem_take hw)

theorem all_not_space_of_wsfree {w : List Char} (h : w.all (fun c => !isWS c) = true) :
    w.all (fun c => !(c = ' ' : Bool)) = true := by
  simp only [List.all_eq_true] at h ⊢
  intro c hc
  simpa using ne_space_of_not_ws (by simpa using h c hc)

theorem noDbl_append : ∀ (w X : List Char),
    w.all (fun c => !(c = ' ' : Bool)) = true → noDbl X = true →
    noDbl (w ++ X) = true := by
  intro w
  induction w with
  | nil => intro X _ hX; simpa using hX
  | cons c w' ih =>
    intro X hall hX
    simp only [List.all_cons, Bool.and_eq_true] at hall
    rw [List.cons_append, noDbl_cons]
    simp [hall.1, ih X hall.2 hX]

theorem noDbl_of_spacefree {w : List Char}
    (h : w.all (fun c => !(c = ' ' : Bool)) = true) : noDbl w = true := by
  have := noDbl_append w [] h rfl
  simpa using this

theorem lastNotWS_of_wsfree : ∀ w : List Char,
    w.all (fun c => !isWS c) = true → lastNotWS w = true := by
  intro w
  induction w with
  | nil => intro _; rfl
  | cons c r ih =>
    intro h
    simp only [List.all_cons, Bool.and_eq_true] at h
    cases r with
    | nil => simpa [lastNotWS] using h.1
    | cons d r2 =>
      rw [lastNotWS_cons_ne (by simp)]
      exact ih h.2

theorem lastNotWS_append : ∀ (A B : List Char), B ≠ [] →
    lastNotWS (A ++ B) = lastNotWS B := by
  intro A B hB
  induction A with
  | nil => rfl
  | cons a A' ih =>
    rw [List.cons_append, lastNotWS_cons_ne (by simp [hB]), ih]

theorem okWS_of_wsfree {w : List Char} (h : w.all (fun c => !isWS c) = true) :
    okWS w = true := by
  simp only [okWS, List.all_eq_true] at *
  intro c hc
  simp [h c hc]

theorem okWS_append {A B : List Char} (hA : okWS A = true) (hB : okWS B = true) :
    okWS (A ++ B) = true := by
  simp only [okWS, List.all_append, Bool.and_eq_true]
  exact ⟨hA, hB⟩

theorem joinSpace_cons_ne {w : List Char} {ws : List (List Char)} (h : ws ≠ []) :
    joinSpaceL (w :: ws) = w ++ ' ' :: joinSpaceL ws := by
  cases ws with
  | nil => exact absurd rfl h
  | cons x xs => rfl

theorem joinSpace_ne_nil {L : List (List Char)} (h : goodWords L) (hL : L ≠ []) :
    joinSpaceL L ≠ [] := by
  cases L with
  | nil => exact absurd rfl hL
  | cons w ws =>
    cases ws with
    | nil =>
      have := h w (List.mem_cons_self _ _)
      simpa [joinSpaceL] using this.1
    | cons x xs =>
      rw [joinSpace_cons_ne (by simp)]
      simp

theorem headNotWS_append_left {w Y : List Char} (h : w ≠ []) :
    headNotWS (w ++ Y) = headNotWS w := by
  cases w with
  | nil => exact absurd rfl h
  | cons c r => rfl

theorem headNotWS_joinSpace : ∀ L : List (List Char), goodWords L →
    headNotWS (joinSpaceL L) = true := by
  intro L h
  cases L with
  | nil => rfl
  | cons w ws =>
    have hw := h w (List.mem_cons_self _ _)
    have hwne : w ≠ [] := by simpa using hw.1
    cases ws with
    | nil => simpa [joinSpaceL] using headNotWS_of_all hw.2
    | cons x xs =>
      rw [joinSpace_cons_ne (by simp), headNotWS_append_left hwne]
      exact headNotWS_of_all hw.2

theorem normalWS_parts {l : List Char} (h : normalWS l = true) :
    okWS l = true ∧ noDbl l = true ∧ headNotWS l = true ∧ lastNotWS l = true := by
  simp only [normalWS, Bool.and_eq_true] at h
  exact ⟨h.1.1.1, h.1.1.2, h.1.2, h.2⟩

theorem normalWS_intro {l : List Char} (h1 : okWS l = true) (h2 : noDbl l = true)
    (h3 : headNotWS l = true) (h4 : lastNotWS l = true) : normalWS l = true := by
  simp [normalWS, h1, h2, h3, h4]

theorem joinSpace_normal : ∀ L : List (List Char), goodWords L →
    normalWS (joinSpaceL L) = true := by
  intro L
  induction L with
  | nil => intro _; rfl
  | cons w ws ih =>
    intro h
    have hw := h w (List.mem_cons_self _ _)
    have hws : goodWords ws := fun v hv => h v (List.mem_cons_of_mem _ hv)
    have hwne : w ≠ [] := by simpa using hw.1
    cases ws with
    | nil =>
      show normalWS (joinSpaceL [w]) = true
      have : joinSpaceL [w] = w := rfl
      rw [this]
      exact normalWS_intro (okWS_of_wsfree hw.2)
        (noDbl_of_spacefree (all_not_space_of_wsfree hw.2))
        (headNotWS_of_all hw.2) (lastNotWS_of_wsfree w hw.2)
    | cons x xs =>
      rw [joinSpace_cons_ne (by simp)]
      have hXnorm := ih hws
      rcases normalWS_parts hXnorm with ⟨hXok, hXdbl, hXhead, hXlast⟩
      have hXne : joinSpaceL (x :: xs) ≠ [] := joinSpace_ne_nil hws (by simp)
      refine normalWS_intro ?_ ?_ ?_ ?_
      · refine okWS_append (okWS_of_wsfree hw.2) ?_
        simp only [okWS, List.all_cons]
        simp [isWS, okWS] at hXok ⊢
        exact hXok
      · refine noDbl_append _ _ (all_not_space_of_wsfree hw.2) ?_
        rw [noDbl_cons]
        simp [headNotSpc_of_headNotWS hXhead, hXdbl]
      · rw [headNotWS_append_left hwne]
        exact headNotWS_of_all hw.2
      · rw [lastNotWS_append _ _ (by simp), lastNotWS_cons_ne hXne]
        exact hXlast

theorem firstNWordsL_normal (l : List Char) (n : Nat) :
    normalWS (firstNWordsL l n) = true := by
  unfold firstNWordsL
  by_cases hc : cleanL l = []
  · rw [hc]
    cases n with
    | zero => rfl
    | succ m =>
      show normalWS (joinSpaceL ([[]].take (m + 1))) = true
      rw [List.take_succ_cons, List.take_nil]
      rfl
  · rcases normalWS_parts (cleanL_normal l) with ⟨hok, hdbl, hhead, hlast⟩
    exact joinSpace_normal _ (goodWords_take
      (splitSpace_good (cleanL l).length _ (Nat.le_refl _) hok hdbl hlast hhead hc) n)

theorem cleanL_firstNWordsL (l : List Char) (n : Nat) :
    cleanL (firstNWordsL l n) = firstNWordsL l n :=
  cleanL_of_normal (firstNWordsL_normal l n)

theorem firstNWordsL_ne_nil {l : List Char} (h : cleanL l ≠ []) {n : Nat}
    (hn : 1 ≤ n) : firstNWordsL l n ≠ [] := by
  unfold firstNWordsL
  cases e : splitSpaceL (cleanL l) with
  | nil => exact absurd e (splitSpaceL_ne_nil _)
  | cons w ws =>
    rcases normalWS_parts (cleanL_normal l) with ⟨hok, hdbl, hhead, hlast⟩
    have hgood := splitSpace_good (cleanL l).length _ (Nat.le_refl _) hok hdbl hlast hhead h
    rw [e] at hgood
    have hwne : w ≠ [] := by simpa using (hgood w (List.mem_cons_self _ _)).1
    cases n with
    | zero => omega
    | succ m =>
      rw [List.take_succ_cons]
      cases e2 : ws.take m with
      | nil => simpa [joinSpaceL] using hwne
      | cons x xs =>
        rw [joinSpace_cons_ne (by simp)]
        simp [hwne]

/-! ## String-level corollaries and the Dice-similarity refinement -/

theorem clean_clean (s : String) : clean (clean s) = clean s := by
  show String.mk (cleanL (cleanL s.data)) = String.mk (cleanL s.data)
  rw [cleanL_idem]

theorem clean_firstNWords (s : String) (n : Nat) :
    clean (firstNWords s n) = firstNWords s n := by
  show String.mk (cleanL (firstNWordsL s.data n)) = String.mk (firstNWordsL s.data n)
  rw [cleanL_firstNWordsL]

theorem clean_eq_empty_iff (s : String) : clean s = "" ↔ cleanL s.data = [] := by
  simp [clean, String.ext_iff]

theorem ofList_eraseFirst : ∀ (A : List (Char × Char)) (b : Char × Char), b ∈ A →
    (Multiset.ofList A).erase b = Multiset.ofList (eraseFirst A b) := by
  intro A
  induction A with
  | nil => intro b h; cases h
  | cons x xs ih =>
    intro b h
    by_cases hx : x = b
    · subst hx
      have hcoe : (Multiset.ofList (x :: xs)) = x ::ₘ Multiset.ofList xs := rfl
      rw [hcoe, Multiset.erase_cons_head]
      show Multiset.ofList xs = Multiset.ofList (eraseFirst (x :: xs) x)
      simp [eraseFirst]
    · have hmem : b ∈ xs := by
        rcases List.mem_cons.mp h with h1 | h1
        · exact absurd h1.symm hx
        · exact h1
      have hcoe : (Multiset.ofList (x :: xs)) = x ::ₘ Multiset.ofList xs := rfl
      rw [hcoe, Multiset.erase_cons_tail_of_mem (by simpa using hmem), ih b hmem]
      rw [show eraseFirst (x :: xs) b = x :: eraseFirst xs b from by simp [eraseFirst, hx]]
      rfl

theorem interCount_eq_inter_card : ∀ (B A : List (Char × Char)),
    interCount A B = ((Multiset.ofList A) ∩ (Multiset.ofList B)).card := by
  intro B
  induction B with
  | nil => intro A; simp [interCount]
  | cons b bs ih =>
    intro A
    have hcoe : (Multiset.ofList (b :: bs)) = b ::ₘ Multiset.ofList bs := rfl
    by_cases hb : A.contains b = true
    · have hbA : b ∈ A := by simpa using hb
      have hr : Multiset.ofList A ∩ (b ::ₘ Multiset.ofList bs) =
          b ::ₘ (Multiset.ofList bs ∩ (Multiset.ofList A).erase b) := by
        rw [Multiset.inter_comm]
        exact Multiset.cons_inter_of_pos _ (by simpa using hbA)
      simp only [interCount, hb, if_true]
      rw [ih, hcoe, hr, Multiset.card_cons, ofList_eraseFirst A b hbA,
        Multiset.inter_comm]
      omega
    · have hbA : ¬ b ∈ A := by
        intro hmem
        exact hb (by simpa using hmem)
      have hb' : A.contains b = false := by simpa using hb
      have hr : Multiset.ofList A ∩ (b ::ₘ Multiset.ofList bs) =
          Multiset.ofList bs ∩ Multiset.ofList A := by
        rw [Multiset.inter_comm]
        exact Multiset.cons_inter_of_neg _ (by simpa using hbA)
      simp only [interCount, hb', Bool.false_eq_true, if_false]
      rw [ih, hcoe, hr, Multiset.inter_comm]

theorem bigrams_length (l : List Char) : (bigrams l).length = l.length - 1 := by
  simp only [bigrams, List.length_zip, List.length_drop]
  omega

theorem similarity_eq_spec (a b : String) :
    similarity a b = specSimilarity (clean a) (clean b) := by
  unfold similarity specSimilarity
  simp only
  rw [interCount_eq_inter_card, bigrams_length, bigrams_length]
  rfl

/-! ## Substring and prefix facts -/

theorem startsWithL_append_self : ∀ l r : List Char, startsWithL l (l ++ r) = true := by
  intro l r
  induction l with
  | nil => rfl
  | cons c t ih => simpa [startsWithL] using ih

theorem containsL_of_startsWithL {nd h : List Char} (hs : startsWithL nd h = true) :
    containsL nd h = true := by
  cases h with
  | nil => simpa [containsL] using hs
  | cons c t => simp [containsL, hs]

theorem joinSpace_append_ne : ∀ (A B : List (List Char)), A ≠ [] → B ≠ [] →
    joinSpaceL (A ++ B) = joinSpaceL A ++ ' ' :: joinSpaceL B := by
  intro A
  induction A with
  | nil => intro B h _; exact absurd rfl h
  | cons a A' ih =>
    intro B _ hB
    cases A' with
    | nil =>
      rw [List.singleton_append, joinSpace_cons_ne hB]
      rfl
    | cons a2 A'' =>
      have h1 : ((a2 :: A'') ++ B : List (List Char)) ≠ [] := by simp
      rw [List.cons_append, joinSpace_cons_ne h1, ih B (by simp) hB,
        joinSpace_cons_ne (by simp : (a2 :: A'' : List (List Char)) ≠ [])]
      simp

theorem joinSpace_take_prefix (L : List (List Char)) {m n : Nat} (hmn : m ≤ n) :
    ∃ r, joinSpaceL (L.take n) = joinSpaceL (L.take m) ++ r := by
  have hA : (L.take n).take m = L.take m := by
    rw [List.take_take, Nat.min_eq_left hmn]
  have hsplit : L.take m ++ (L.take n).drop m = L.take n := by
    rw [← hA, List.take_append_drop]
  rcases eq_or_ne ((L.take n).drop m) [] with hB | hB
  · exact ⟨[], by rw [← hsplit, hB]; simp⟩
  · rcases eq_or_ne (L.take m) [] with hA0 | hA0
    · exact ⟨joinSpaceL (L.take n), by rw [hA0]; simp [joinSpaceL]⟩
    · refine ⟨' ' :: joinSpaceL ((L.take n).drop m), ?_⟩
      have h3 := joinSpace_append_ne (L.take m) ((L.take n).drop m) hA0 hB
      rw [hsplit] at h3
      exact h3

theorem startsWithL_map (f : Char → Char) : ∀ (a b : List Char),
    startsWithL a b = true → startsWithL (a.map f) (b.map f) = true := by
  intro a
  induction a with
  | nil => intro b _; rfl
  | cons c t ih =>
    intro b h
    cases b with
    | nil => simp [startsWithL] at h
    | cons d u =>
      simp only [startsWithL, Bool.and_eq_true] at h
      have : c = d := by simpa using h.1
      subst this
      simpa [startsWithL] using ih u h.2

theorem containsL_lower_firstN (t : String) {m n : Nat} (hmn : m ≤ n) :
    containsL (lowerL (firstNWordsL t.data m)) (lowerL (firstNWordsL t.data n)) = true := by
  obtain ⟨r, hr⟩ := joinSpace_take_prefix (splitSpaceL (cleanL t.data)) hmn
  apply containsL_of_startsWithL
  have h2 : firstNWordsL t.data n = firstNWordsL t.data m ++ r := hr
  rw [h2]
  unfold lowerL
  rw [List.map_append]
  exact startsWithL_append_self _ _

/-! ## Branch structure of `validateHook` -/

theorem validateHook_empty {transcript : String} (gptHook : Option String)
    (h : clean transcript = "") :
    validateHook gptHook transcript = { hook := none, source := "none", score := 0 } := by
  simp [validateHook, h]

theorem validateHook_none_eq {t : String} (ht : clean t ≠ "") :
    validateHook none t = hookFallback (clean t) := by
  simp [validateHook, ht]

theorem validateHook_some_eq {h t : String} (ht : clean t ≠ "") (hh : clean h ≠ "") :
    validateHook (some h) t =
      (match gptCheck (clean h) (clean t) with
       | some r => r
       | none => hookFallback (clean t)) := by
  simp [validateHook, ht, hh]

theorem validateHook_some_accept {h t : String} {r : HookResult} (ht : clean t ≠ "")
    (hh : clean h ≠ "") (he : gptCheck (clean h) (clean t) = some r) :
    validateHook (some h) t = r := by
  rw [validateHook_some_eq ht hh, he]

theorem validateHook_some_reject {h t : String} (ht : clean t ≠ "")
    (hh : clean h ≠ "") (he : gptCheck (clean h) (clean t) = none) :
    validateHook (some h) t = hookFallback (clean t) := by
  rw [validateHook_some_eq ht hh, he]

theorem gptCheck_cases (g t : String) :
    (gptCheck g t = none ∧ isSubstringOfStart g t = false ∧
      ¬ simThreshold ≤ similarity g (firstNWords t 15)) ∨
    (gptCheck g t = some ⟨some g, "gpt", similarity g (firstNWords t 15)⟩ ∧
      (isSubstringOfStart g t = true ∨
        simThreshold ≤ similarity g (firstNWords t 15))) := by
  unfold gptCheck
  by_cases h1 : isSubstringOfStart g t = true
  · right
    simp [h1]
  · by_cases h2 : simThreshold ≤ similarity g (firstNWords t 15)
    · right
      refine ⟨?_, Or.inr h2⟩
      rw [if_neg (by simpa using h1), if_pos (by exact h2)]
    · left
      refine ⟨?_, by simpa using h1, h2⟩
      rw [if_neg (by simpa using h1), if_neg (by exact h2)]

theorem hookFallback_source_ne_gpt (t : String) : (hookFallback t).source ≠ "gpt" := by
  unfold hookFallback
  split_ifs <;> simp

/-- C3: with a non-empty normalized transcript and a non-empty candidate, the
validator accepts the candidate with `source = "gpt"` exactly when the
lowercased candidate occurs in the first 25 words or the bigram Dice
similarity (specified via bigram-multiset intersection) against the first 15
words is at least 0.6; a rejected candidate is discarded and the result is
exactly the no-candidate fallback. -/
theorem hookValidator_gpt_acceptance (t h : String)
    (ht : clean t ≠ "") (hh : clean h ≠ "") :
    ((validateHook (some h) t).source = "gpt" ↔
      (isSubstringOfStart (clean h) (clean t) = true ∨
        simThreshold ≤ specSimilarity (clean h) (firstNWords (clean t) 15))) ∧
    ((validateHook (some h) t).source = "gpt" →
      (validateHook (some h) t).hook = some (clean h)) ∧
    ((validateHook (some h) t).source ≠ "gpt" →
      validateHook (some h) t = validateHook none t) := by
  have hsim : similarity (clean h) (firstNWords (clean t) 15) =
      specSimilarity (clean h) (firstNWords (clean t) 15) := by
    rw [similarity_eq_spec, clean_clean, clean_firstNWords]
  have hts := validateHook_some_eq ht hh
  have htn := validateHook_none_eq ht
  rcases gptCheck_cases (clean h) (clean t) with ⟨he, hsub, hsml⟩ | ⟨he, hacc⟩
  · rw [he] at hts
    simp only [hts, htn]
    refine ⟨?_, ?_, fun _ => trivial⟩
    · constructor
      · intro hsrc
        exact absurd hsrc (hookFallback_source_ne_gpt _)
      · intro hor
        rcases hor with h1 | h1
        · rw [hsub] at h1; exact absurd h1 (by simp)
        · rw [← hsim] at h1; exact absurd h1 hsml
    · intro hsrc
      exact absurd hsrc (hookFallback_source_ne_gpt _)
  · rw [he] at hts
    simp only [hts]
    refine ⟨?_, fun _ => trivial, fun hne => absurd rfl hne⟩
    simp only [true_iff]
    rcases hacc with h1 | h1
    · exact Or.inl h1
    · exact Or.inr (by rw [← hsim]; exact h1)

/-- Witness for C3 at a concrete transcript and candidate. -/
theorem hookValidator_gpt_acceptance_witness :
    clean "hello world how are you doing" ≠ "" ∧ clean "hello world" ≠ "" ∧
    (((validateHook (some "hello world") "hello world how are you doing").source = "gpt" ↔
      (isSubstringOfStart (clean "hello world") (clean "hello world how are you doing") = true ∨
        simThreshold ≤ specSimilarity (clean "hello world")
          (firstNWords (clean "hello world how are you doing") 15))) ∧
    ((validateHook (some "hello world") "hello world how are you doing").source = "gpt" →
      (validateHook (some "hello world") "hello world how are you doing").hook =
        some (clean "hello world")) ∧
    ((validateHook (some "hello world") "hello world how are you doing").source ≠ "gpt" →
      validateHook (some "hello world") "hello world how are you doing" =
        validateHook none "hello world how are you doing")) :=
  ⟨by decide, by decide,
    hookValidator_gpt_acceptance "hello world how are you doing" "hello world"
      (by decide) (by decide)⟩

theorem firstNWords_ne_empty {t : String} (ht : clean t ≠ "") {n : Nat} (hn : 1 ≤ n) :
    firstNWords t n ≠ "" := by
  have h1 : cleanL t.data ≠ [] := by
    intro he
    exact ht ((clean_eq_empty_iff t).mpr he)
  intro he
  exact firstNWordsL_ne_nil h1 hn (by simpa [firstNWords, String.ext_iff] using he)

theorem firstNWordsL_cleanL (l : List Char) (n : Nat) :
    firstNWordsL (cleanL l) n = firstNWordsL l n := by
  unfold firstNWordsL
  rw [cleanL_idem]

theorem firstNWords_clean (t : String) (n : Nat) :
    firstNWords (clean t) n = firstNWords t n := by
  show String.mk (firstNWordsL (cleanL t.data) n) = String.mk (firstNWordsL t.data n)
  rw [firstNWordsL_cleanL]

theorem firstSentence_no_match (s : String) (hs : sentScan [] (cleanL s.data) = none) :
    firstSentence s = firstNWords (clean s) 12 := by
  unfold firstSentence
  dsimp only
  rw [hs]
  rfl

/-- C4 (amended): for a non-empty transcript with no candidate, the result is
the first sentence with `source = "first_sentence"` exactly when its word
count lies in `[5, 25]`, and otherwise the first 12 words with
`source = "first_n_words"`; when the transcript has no terminator matched by
the sentence regex, the "first sentence" itself is already the first 12
words. -/
theorem hookValidator_fallback (t : String) (ht : clean t ≠ "") :
    ((5 ≤ (splitSpaceL (firstSentence (clean t)).data).length ∧
        (splitSpaceL (firstSentence (clean t)).data).length ≤ 25) →
      validateHook none t =
        { hook := some (firstSentence (clean t)), source := "first_sentence", score := 1 }) ∧
    (¬(5 ≤ (splitSpaceL (firstSentence (clean t)).data).length ∧
        (splitSpaceL (firstSentence (clean t)).data).length ≤ 25) →
      validateHook none t =
        { hook := some (firstNWords (clean t) 12), source := "first_n_words", score := 1 }) ∧
    ((validateHook none t).source = "first_sentence" ↔
      (5 ≤ (splitSpaceL (firstSentence (clean t)).data).length ∧
        (splitSpaceL (firstSentence (clean t)).data).length ≤ 25)) ∧
    (sentScan [] (cleanL t.data) = none →
      firstSentence (clean t) = firstNWords (clean t) 12) := by
  have hb := validateHook_none_eq ht
  have hwords : firstNWords (clean t) 12 ≠ "" := by
    rw [firstNWords_clean]
    exact firstNWords_ne_empty ht (by omega)
  by_cases hwc : 5 ≤ (splitSpaceL (firstSentence (clean t)).data).length ∧
      (splitSpaceL (firstSentence (clean t)).data).length ≤ 25
  · have hres : validateHook none t =
        { hook := some (firstSentence (clean t)), source := "first_sentence", score := 1 } := by
      rw [hb]
      unfold hookFallback
      rw [if_pos hwc]
    refine ⟨fun _ => hres, fun hn => absurd hwc hn, ?_, ?_⟩
    · simp [hres, hwc]
    · intro hs
      have hs2 : sentScan [] (cleanL (clean t).data) = none := by
        rw [show cleanL (clean t).data = cleanL t.data from cleanL_idem t.data]
        exact hs
      rw [firstSentence_no_match _ hs2, clean_clean]
  · have hres : validateHook none t =
        { hook := some (firstNWords (clean t) 12), source := "first_n_words", score := 1 } := by
      rw [hb]
      unfold hookFallback
      rw [if_neg hwc, if_pos hwords]
    refine ⟨fun hc => absurd hc hwc, fun _ => hres, ?_, ?_⟩
    · simp [hres, hwc]
    · intro hs
      have hs2 : sentScan [] (cleanL (clean t).data) = none := by
        rw [show cleanL (clean t).data = cleanL t.data from cleanL_idem t.data]
        exact hs
      rw [firstSentence_no_match _ hs2, clean_clean]

/-- Witness for C4 at a concrete transcript whose first sentence has 6
words. -/
theorem hookValidator_fallback_witness :
    clean "one two three four five six. and the rest" ≠ "" ∧
    (validateHook none "one two three four five six. and the rest" =
      { hook := some (firstSentence (clean "one two three four five six. and the rest")),
        source := "first_sentence", score := 1 }) :=
  ⟨by decide,
    (hookValidator_fallback "one two three four five six. and the rest" (by decide)).1
      (by decide)⟩

/-- Counterexample for C4 as stated: the transcript `"a b c d e f"` contains
no terminal punctuation, so the claim requires `source = "first_n_words"`,
but the code's `firstSentence` falls back to the first 12 words itself and
the result is tagged `source = "first_sentence"`. -/
theorem hookValidator_fallback_counterexample :
    sentScan [] (cleanL ("a b c d e f" : String).data) = none ∧
    (validateHook none "a b c d e f").source = "first_sentence" ∧
    ¬((validateHook none "a b c d e f").source = "first_n_words") := by
  refine ⟨by decide, by decide, by decide⟩

/-- C5 (amended): a candidate equal to the transcript's first 10 words is
always accepted with `source = "gpt"` (for a non-empty transcript), but the
score is the Dice similarity against the first 15 words — it equals 1.0 when
the cleaned transcript has at most 10 words, not in general. -/
theorem hookValidator_first10 (t : String) (ht : clean t ≠ "") :
    (validateHook (some (firstNWords t 10)) t).source = "gpt" ∧
    (validateHook (some (firstNWords t 10)) t).hook = some (firstNWords t 10) ∧
    (validateHook (some (firstNWords t 10)) t).score =
      specSimilarity (firstNWords t 10) (firstNWords t 15) ∧
    ((splitSpaceL (cleanL t.data)).length ≤ 10 →
      (validateHook (some (firstNWords t 10)) t).score = 1) := by
  have hcl : clean (firstNWords t 10) = firstNWords t 10 := clean_firstNWords t 10
  have hh : clean (firstNWords t 10) ≠ "" := by
    rw [hcl]; exact firstNWords_ne_empty ht (by omega)
  have hsub : isSubstringOfStart (clean (firstNWords t 10)) (clean t) = true := by
    rw [hcl]
    unfold isSubstringOfStart
    rw [show cleanL (firstNWords t 10).data = firstNWordsL t.data 10 from
      cleanL_firstNWordsL t.data 10]
    rw [show firstNWordsL (clean t).data 25 = firstNWordsL t.data 25 from
      firstNWordsL_cleanL t.data 25]
    exact containsL_lower_firstN t (by omega)
  have hg : gptCheck (clean (firstNWords t 10)) (clean t) =
      some ⟨some (clean (firstNWords t 10)), "gpt",
        similarity (clean (firstNWords t 10)) (firstNWords (clean t) 15)⟩ := by
    unfold gptCheck
    rw [if_pos hsub]
  have hr : validateHook (some (firstNWords t 10)) t =
      ⟨some (clean (firstNWords t 10)), "gpt",
        similarity (clean (firstNWords t 10)) (firstNWords (clean t) 15)⟩ :=
    validateHook_some_accept ht hh hg
  have hsc := congrArg HookResult.score hr
  dsimp only at hsc
  refine ⟨by rw [hr], by rw [hr, hcl], ?_, ?_⟩
  · rw [hsc, similarity_eq_spec, clean_clean, hcl, clean_firstNWords, firstNWords_clean]
  · intro hw
    rw [hsc]
    have e10 : firstNWords t 10 = clean t := by
      show String.mk (firstNWordsL t.data 10) = String.mk (cleanL t.data)
      unfold firstNWordsL
      rw [List.take_of_length_le hw, join_split_id]
    have e15 : firstNWords (clean t) 15 = clean t := by
      rw [firstNWords_clean]
      show String.mk (firstNWordsL t.data 15) = String.mk (cleanL t.data)
      unfold firstNWordsL
      rw [List.take_of_length_le (le_trans hw (by omega)), join_split_id]
    rw [hcl, e10, e15]
    unfold similarity
    simp

/-- Witness for C5 (amended) at a concrete three-word transcript. -/
theorem hookValidator_first10_witness :
    clean "alpha beta gamma" ≠ "" ∧
    (splitSpaceL (cleanL ("alpha beta gamma" : String).data)).length ≤ 10 ∧
    (validateHook (some (firstNWords "alpha beta gamma" 10)) "alpha beta gamma").source =
      "gpt" ∧
    (validateHook (some (firstNWords "alpha beta gamma" 10)) "alpha beta gamma").score = 1 :=
  ⟨by decide, by decide,
    (hookValidator_first10 "alpha beta gamma" (by decide)).1,
    (hookValidator_first10 "alpha beta gamma" (by decide)).2.2.2 (by decide)⟩

set_option maxHeartbeats 2000000 in
/-- Counterexample for C5 as stated: on a 16-word transcript, the candidate
equal to the first 10 words is accepted with `source = "gpt"`, but the score
is the Dice similarity against the first 15 words and differs from 1.0. -/
theorem hookValidator_first10_counterexample :
    (validateHook (some (firstNWords "a b c d e f g h i j k l m n o p" 10))
      "a b c d e f g h i j k l m n o p").source = "gpt" ∧
    ¬((validateHook (some (firstNWords "a b c d e f g h i j k l m n o p" 10))
      "a b c d e f g h i j k l m n o p").score = 1) := by
  constructor
  · decide
  · have hsc : (validateHook (some (firstNWords "a b c d e f g h i j k l m n o p" 10))
        "a b c d e f g h i j k l m n o p").score =
        similarity (clean (firstNWords "a b c d e f g h i j k l m n o p" 10))
          (firstNWords (clean "a b c d e f g h i j k l m n o p") 15) := rfl
    have e1 : clean (firstNWords "a b c d e f g h i j k l m n o p" 10) =
        "a b c d e f g h i j" := by decide
    have e2 : firstNWords (clean "a b c d e f g h i j k l m n o p") 15 =
        "a b c d e f g h i j k l m n o" := by decide
    rw [hsc, e1, e2]
    unfold similarity
    dsimp only
    rw [if_neg (by decide), if_neg (by decide)]
    rw [show interCount (bigrams (lowerL (cleanL ("a b c d e f g h i j" : String).data)))
        (bigrams (lowerL (cleanL ("a b c d e f g h i j k l m n o" : String).data))) = 18 from
        by decide]
    rw [show ((lowerL (cleanL ("a b c d e f g h i j" : String).data)).length - 1 : Nat) = 18 from
        by decide]
    rw [show ((lowerL (cleanL ("a b c d e f g h i j k l m n o" : String).data)).length - 1 :
        Nat) = 28 from by decide]
    norm_num

/-! ## The speech-presence filter -/

theorem transcribeGate_none_iff (segs : List Segment) :
    transcribeGate segs = none ↔
      (segs = [] ∨ 1/2 < avgNoSpeechProb segs ∨ speechSegments segs = []) := by
  unfold transcribeGate
  split_ifs with hA hB hC
  · exact iff_of_true rfl (Or.inl hA)
  · exact iff_of_true rfl (Or.inr (Or.inl hB))
  · exact iff_of_true rfl (Or.inr (Or.inr hC))
  · refine iff_of_false (by simp) ?_
    rintro (h | h | h)
    · exact hA h
    · exact hB h
    · exact hC h

theorem transcribeGate_some (segs : List Segment) (h1 : segs ≠ [])
    (h2 : ¬ 1/2 < avgNoSpeechProb segs) (h3 : speechSegments segs ≠ []) :
    transcribeGate segs = some (String.mk (reconText segs)) := by
  unfold transcribeGate
  rw [if_neg h1, if_neg (by simpa using h2), if_neg h3]

theorem reconText_trim (segs : List Segment) : trimL (reconText segs) = reconText segs := by
  unfold reconText
  exact trimL_idem _

theorem transcriptGate_eval (l : List Char) (hl : trimL l = l) :
    transcriptGate (some (String.mk l)) =
      { hasValidTranscript :=
          decide (¬ l.length < 100) && decide (¬ wordCountJS l < 15) &&
            !garbageC l && !lyricsC l && !gibberishC l,
        rejectedReason :=
          if tooShortC l then some "too_short"
          else if garbageC l then some "garbage_phrase"
          else if lyricsC l then some "song_lyrics"
          else if gibberishC l then some "gibberish"
          else none,
        hasSpeech := decide (0 < l.length) } := by
  unfold transcriptGate
  dsimp only
  rw [hl]
  rfl

theorem transcriptGate_none_eval :
    transcriptGate none =
      { hasValidTranscript := false, rejectedReason := some "too_short",
        hasSpeech := false } := by decide

/-- C6: the transcript gate skips hook/persona generation exactly when a
segment-level speech-absence condition or one of the four text conditions
holds, and the recorded reason is the first applicable one in the fixed
order; a segment-level rejection is recorded as `too_short` with
`has_speech = false` (the transcript is null there). -/
theorem speechFilter_rejects_iff (segs : List Segment) :
    ((speechGate segs).hasValidTranscript = false ↔
      (segs = [] ∨ 1/2 < avgNoSpeechProb segs ∨ speechSegments segs = [] ∨
        tooShortC (reconText segs) = true ∨ garbageC (reconText segs) = true ∨
        lyricsC (reconText segs) = true ∨ gibberishC (reconText segs) = true)) ∧
    ((segs ≠ [] ∧ ¬(1/2 < avgNoSpeechProb segs) ∧ speechSegments segs ≠ []) →
      ((tooShortC (reconText segs) = true →
          (speechGate segs).rejectedReason = some "too_short") ∧
       (tooShortC (reconText segs) = false → garbageC (reconText segs) = true →
          (speechGate segs).rejectedReason = some "garbage_phrase") ∧
       (tooShortC (reconText segs) = false → garbageC (reconText segs) = false →
          lyricsC (reconText segs) = true →
          (speechGate segs).rejectedReason = some "song_lyrics") ∧
       (tooShortC (reconText segs) = false → garbageC (reconText segs) = false →
          lyricsC (reconText segs) = false → gibberishC (reconText segs) = true →
          (speechGate segs).rejectedReason = some "gibberish") ∧
       (tooShortC (reconText segs) = false → garbageC (reconText segs) = false →
          lyricsC (reconText segs) = false → gibberishC (reconText segs) = false →
          (speechGate segs).rejectedReason = none))) ∧
    ((segs = [] ∨ 1/2 < avgNoSpeechProb segs ∨ speechSegments segs = []) →
      ((speechGate segs).rejectedReason = some "too_short" ∧
       (speechGate segs).hasSpeech = false)) := by
  by_cases hfail : segs = [] ∨ 1/2 < avgNoSpeechProb segs ∨ speechSegments segs = []
  · have hsg : speechGate segs = transcriptGate none := by
      unfold speechGate
      rw [(transcribeGate_none_iff segs).mpr hfail]
    rw [hsg, transcriptGate_none_eval]
    refine ⟨iff_of_true rfl ?_, fun hpass => ?_, fun _ => ⟨rfl, rfl⟩⟩
    · rcases hfail with h | h | h
      · exact Or.inl h
      · exact Or.inr (Or.inl h)
      · exact Or.inr (Or.inr (Or.inl h))
    · rcases hpass with ⟨p1, p2, p3⟩
      rcases hfail with h | h | h
      · exact absurd h p1
      · exact absurd h p2
      · exact absurd h p3
  · have h1 : segs ≠ [] := fun h => hfail (Or.inl h)
    have h2 : ¬ 1/2 < avgNoSpeechProb segs := fun h => hfail (Or.inr (Or.inl h))
    have h3 : speechSegments segs ≠ [] := fun h => hfail (Or.inr (Or.inr h))
    have hsg : speechGate segs = transcriptGate (some (String.mk (reconText segs))) := by
      unfold speechGate
      rw [transcribeGate_some segs h1 h2 h3]
    rw [hsg, transcriptGate_eval _ (reconText_trim segs)]
    have hD : (segs = [] ∨ 1/2 < avgNoSpeechProb segs ∨ speechSegments segs = [] ∨
        tooShortC (reconText segs) = true ∨ garbageC (reconText segs) = true ∨
        lyricsC (reconText segs) = true ∨ gibberishC (reconText segs) = true) ↔
        (tooShortC (reconText segs) = true ∨ garbageC (reconText segs) = true ∨
          lyricsC (reconText segs) = true ∨ gibberishC (reconText segs) = true) := by
      constructor
      · rintro (h | h | h | h)
        · exact absurd h h1
        · exact absurd h h2
        · exact absurd h h3
        · exact h
      · intro h
        exact Or.inr (Or.inr (Or.inr h))
    rw [hD]
    refine ⟨?_, fun _ => ⟨?_, ?_, ?_, ?_, ?_⟩, fun hf => ?_⟩
    · by_cases p1 : (reconText segs).length < 100 <;>
        by_cases p2 : wordCountJS (reconText segs) < 15 <;>
        cases e3 : garbageC (reconText segs) <;>
        cases e4 : lyricsC (reconText segs) <;>
        cases e5 : gibberishC (reconText segs) <;>
        simp [tooShortC, p1, p2, e3, e4, e5]
    · intro hts
      simp [hts]
    · intro hts hg
      simp [hts, hg]
    · intro hts hg hl
      simp [hts, hg, hl]
    · intro hts hg hl hgib
      simp [hts, hg, hl, hgib]
    · intro hts hg hl hgib
      simp [hts, hg, hl, hgib]
    · rcases hf with h | h | h
      · exact absurd h h1
      · exact absurd h h2
      · exact absurd h h3

/-- Witness for C6 at a concrete one-segment transcription whose text is too
short. -/
theorem speechFilter_rejects_iff_witness :
    (c6segs ≠ [] ∧ ¬(1/2 < avgNoSpeechProb c6segs) ∧ speechSegments c6segs ≠ []) ∧
    tooShortC (reconText c6segs) = true ∧
    (speechGate c6segs).rejectedReason = some "too_short" := by
  have hss : speechSegments c6segs = c6segs := by
    norm_num [speechSegments, c6segs, List.filter]
  have hts : tooShortC (reconText c6segs) = true := by
    unfold reconText
    rw [hss]
    decide
  have hp : c6segs ≠ [] ∧ ¬(1/2 < avgNoSpeechProb c6segs) ∧ speechSegments c6segs ≠ [] := by
    refine ⟨by decide, ?_, by rw [hss]; decide⟩
    norm_num [avgNoSpeechProb, c6segs]
  exact ⟨hp, hts, ((speechFilter_rejects_iff c6segs).2.1 hp).1 hts⟩

/-! ## Job store: record-level facts -/

theorem lookupJob_hset_self (l : List (String × Job)) (id : String) (j : Job) :
    lookupJob (hsetJob l id j) id = some j := by
  simp [hsetJob, lookupJob]

/-- C7: with a reachable store, `createJob` followed by `getJob` on the same
id yields a record with `status = "queued"`, `progress.total = max_ads`, the
other counters zero, and `result`/`error` null. -/
theorem createJob_getJob (conn : Bool) (s : Store) (spec : JobSpec) (now : Nat)
    (hc : conn = true) :
    ∃ s' j, createJobOp conn s spec now = some (s', j) ∧
      getJob s' spec.job_id = some j ∧ j.status = "queued" ∧
      j.progress.total = spec.max_ads ∧ j.progress.scraped = 0 ∧
      j.progress.analyzed = 0 ∧ j.progress.inserted = 0 ∧ j.progress.pending = 0 ∧
      j.progress.failed = 0 ∧ j.result = none ∧ j.error = none := by
  subst hc
  refine ⟨(createJob s spec now).1, mkJob spec now, rfl, ?_, rfl, rfl, rfl, rfl,
    rfl, rfl, rfl, rfl, rfl⟩
  show getJob (createJob s spec now).1 spec.job_id = some (mkJob spec now)
  unfold createJob getJob
  dsimp only
  exact lookupJob_hset_self _ _ _

/-- Witness for C7 at a concrete spec over the empty store. -/
theorem createJob_getJob_witness :
    true = true ∧
    (∃ s' j, createJobOp true emptyStore (mkSpec "w7") 0 = some (s', j) ∧
      getJob s' (mkSpec "w7").job_id = some j ∧ j.status = "queued" ∧
      j.progress.total = (mkSpec "w7").max_ads ∧ j.progress.scraped = 0 ∧
      j.progress.analyzed = 0 ∧ j.progress.inserted = 0 ∧ j.progress.pending = 0 ∧
      j.progress.failed = 0 ∧ j.result = none ∧ j.error = none) :=
  ⟨rfl, createJob_getJob true emptyStore (mkSpec "w7") 0 rfl⟩

/-- C10: `updateProgress` changes only the `progress` sub-record and the
top-level `message`; every other field of the job record is unchanged. -/
theorem updateProgress_frame (s : Store) (id : String) (u : ProgressUpdates) (j : Job)
    (hj : lookupJob s.jobs id = some j) :
    ∃ j', getJob (updateProgress s id u).1 id = some j' ∧
      j'.progress = applyProgress j.progress u ∧
      j'.job_id = j.job_id ∧ j'.url = j.url ∧ j'.max_ads = j.max_ads ∧
      j'.save_json = j.save_json ∧ j'.save_db = j.save_db ∧
      j'.auto_analyze = j.auto_analyze ∧ j'.analysis_mode = j.analysis_mode ∧
      j'.page_id = j.page_id ∧ j'.start_date_formatted = j.start_date_formatted ∧
      j'.end_date_formatted = j.end_date_formatted ∧ j'.period = j.period ∧
      j'.status = j.status ∧ j'.result = j.result ∧ j'.error = j.error ∧
      j'.created_at = j.created_at ∧ j'.started_at = j.started_at ∧
      j'.completed_at = j.completed_at := by
  unfold updateProgress
  rw [hj]
  dsimp only
  refine ⟨{ j with
    progress := applyProgress j.progress u,
    message := match u.message with
      | some m => if m = "" then j.message else some m
      | none => j.message }, ?_, rfl, rfl, rfl, rfl, rfl, rfl, rfl, rfl, rfl, rfl,
    rfl, rfl, rfl, rfl, rfl, rfl, rfl, rfl⟩
  show getJob { s with jobs := hsetJob s.jobs id _ } id = some _
  unfold getJob
  exact lookupJob_hset_self _ _ _

/-- Witness for C10 at a concrete store and update. -/
theorem updateProgress_frame_witness :
    lookupJob runStore.jobs "j1" =
      some { mkJob (mkSpec "j1") 0 with status := "running", started_at := some 1 } ∧
    (∃ j', getJob (updateProgress runStore "j1" { scraped := some 3 }).1 "j1" = some j' ∧
      j'.progress = applyProgress
        ({ mkJob (mkSpec "j1") 0 with status := "running", started_at := some 1 }).progress
        { scraped := some 3 } ∧
      j'.job_id = "j1") := by
  have hj : lookupJob runStore.jobs "j1" =
      some { mkJob (mkSpec "j1") 0 with status := "running", started_at := some 1 } := by
    decide
  refine ⟨hj, ?_⟩
  obtain ⟨j', h1, h2, h3, -⟩ := updateProgress_frame runStore "j1" { scraped := some 3 } _ hj
  exact ⟨j', h1, h2, h3⟩

theorem updateJob_queue (s : Store) (id : String) (u : JobUpdates) :
    (updateJob s id u).1.queue = s.queue := by
  unfold updateJob
  cases lookupJob s.jobs id <;> rfl

theorem updateProgress_queue (s : Store) (id : String) (u : ProgressUpdates) :
    (updateProgress s id u).1.queue = s.queue := by
  unfold updateProgress
  cases lookupJob s.jobs id <;> rfl

/-- C1 (amended): `cancelJob` sets `status = "cancelled"` for any stored job
regardless of its current status (it does not check for running or terminal
states) and removes the id from the queue; `requeueJob` resets the record to
`status = "queued"`, clears the error and zeroes the progress from any
state. -/
theorem cancel_requeue_status (s : Store) (id : String) (j : Job)
    (hj : lookupJob s.jobs id = some j) :
    getJob (cancelJob s id) id = some { j with status := "cancelled" } ∧
    (cancelJob s id).queue = lremAll s.queue id ∧
    getJob (requeueJob s id).1 id = some { j with
      status := "queued", error := none,
      progress := { scraped := 0, analyzed := 0, inserted := 0, pending := 0,
                    failed := 0, total := j.max_ads } } := by
  refine ⟨?_, ?_, ?_⟩
  · unfold cancelJob updateJob
    rw [hj]
    dsimp only
    show lookupJob (hsetJob s.jobs id _) id = _
    rw [lookupJob_hset_self]
    rfl
  · unfold cancelJob
    dsimp only
    rw [updateJob_queue s id _]
  · unfold requeueJob
    rw [hj]
    dsimp only
    show lookupJob (hsetJob s.jobs id _) id = _
    rw [lookupJob_hset_self]

/-- Witness for C1 (amended) at the store holding the running job `"j1"`. -/
theorem cancel_requeue_status_witness :
    lookupJob runStore.jobs "j1" =
      some { mkJob (mkSpec "j1") 0 with status := "running", started_at := some 1 } ∧
    getJob (cancelJob runStore "j1") "j1" =
      some { mkJob (mkSpec "j1") 0 with status := "cancelled", started_at := some 1 } := by
  have hj : lookupJob runStore.jobs "j1" =
      some { mkJob (mkSpec "j1") 0 with status := "running", started_at := some 1 } := by
    decide
  refine ⟨hj, ?_⟩
  have h := (cancel_requeue_status runStore "j1" _ hj).1
  exact h

/-- Counterexample for C1 as stated: cancelling an already-running (claimed)
job is not a no-op on its status — the store writes `status = "cancelled"`
over the running record. -/
theorem cancel_running_counterexample :
    (getJob runStore "j1").map Job.status = some "running" ∧
    (getJob (cancelJob runStore "j1") "j1").map Job.status = some "cancelled" ∧
    ("cancelled" : String) ≠ "running" := by
  refine ⟨by decide, by decide, by decide⟩

theorem getQueuedJob_nil {s : Store} (h : s.queue = []) : getQueuedJob s = (none, s) := by
  unfold getQueuedJob
  rw [h]
  rfl

theorem getQueuedJob_concat {s : Store} {q : List String} {x : String}
    (h : s.queue = q ++ [x]) :
    getQueuedJob s = (some x, { s with queue := q }) := by
  unfold getQueuedJob
  have hg : s.queue.getLast? = some x := by rw [h]; simp
  have hd : s.queue.dropLast = q := by rw [h]; simp
  rw [hg, hd]

theorem drainAux_eq : ∀ (n : Nat) (s : Store), s.queue.length ≤ n →
    drainAux n s = s.queue.reverse := by
  intro n
  induction n with
  | zero =>
    intro s hn
    have hq : s.queue = [] := List.eq_nil_of_length_eq_zero (Nat.le_zero.mp hn)
    rw [hq]
    rfl
  | succ n ih =>
    intro s hn
    rcases List.eq_nil_or_concat s.queue with hq | ⟨q, x, hqx⟩
    · unfold drainAux
      rw [getQueuedJob_nil hq, hq]
      rfl
    · rw [List.concat_eq_append] at hqx
      unfold drainAux
      rw [getQueuedJob_concat hqx]
      dsimp only
      have hlen : ({ s with queue := q } : Store).queue.length ≤ n := by
        show q.length ≤ n
        rw [hqx] at hn
        simp only [List.length_append, List.length_singleton] at hn
        omega
      rw [ih _ hlen, hqx]
      simp

theorem drainQueue_eq (s : Store) : drainQueue s = s.queue.reverse :=
  drainAux_eq s.queue.length s (Nat.le_refl _)

theorem getQueuedJob_queue_sublist (s : Store) :
    List.Sublist (getQueuedJob s).2.queue s.queue := by
  unfold getQueuedJob
  cases hg : s.queue.getLast? with
  | none => exact List.Sublist.refl _
  | some x => exact List.dropLast_sublist _

/-- C2 (amended): job ids enter the work queue at the head (`lPush`) and are
claimed from the tail (`rPop`), so serialized claims drain the queue in
arrival (FIFO) order and return `none` exactly on the empty queue; update
operations never touch the queue; cancel/delete remove every occurrence of
the id; at-most-once membership is preserved by claim, cancel, delete,
`createJob` with a fresh id, and by `requeueJob` only when the id is not
currently queued — `requeueJob` itself re-enqueues unconditionally. -/
theorem queue_discipline (s : Store) :
    (s.queue = [] → getQueuedJob s = (none, s)) ∧
    (∀ q x, s.queue = q ++ [x] → getQueuedJob s = (some x, { s with queue := q })) ∧
    (∀ spec now, (createJob s spec now).1.queue = spec.job_id :: s.queue) ∧
    (∀ id u, (updateJob s id u).1.queue = s.queue) ∧
    (∀ id u, (updateProgress s id u).1.queue = s.queue) ∧
    (∀ id, (cancelJob s id).queue = lremAll s.queue id) ∧
    (∀ id, (deleteJob s id).queue = lremAll s.queue id) ∧
    drainQueue s = s.queue.reverse ∧
    (s.queue.Nodup →
      ((getQueuedJob s).2.queue.Nodup ∧
       (∀ id, (cancelJob s id).queue.Nodup) ∧
       (∀ id, (deleteJob s id).queue.Nodup) ∧
       (∀ spec now, spec.job_id ∉ s.queue → (createJob s spec now).1.queue.Nodup) ∧
       (∀ id, id ∉ s.queue → (requeueJob s id).1.queue.Nodup))) := by
  have hcancel : ∀ id, (cancelJob s id).queue = lremAll s.queue id := by
    intro id
    unfold cancelJob
    dsimp only
    rw [updateJob_queue s id _]
  refine ⟨fun h => getQueuedJob_nil h, fun q x h => getQueuedJob_concat h,
    fun spec now => rfl, updateJob_queue s, updateProgress_queue s,
    hcancel, fun id => rfl, drainQueue_eq s, fun hnd => ⟨?_, ?_, ?_, ?_, ?_⟩⟩
  · exact List.Nodup.sublist (getQueuedJob_queue_sublist s) hnd
  · intro id
    rw [hcancel id]
    exact List.Nodup.filter _ hnd
  · intro id
    exact List.Nodup.filter _ hnd
  · intro spec now hmem
    exact List.nodup_cons.mpr ⟨hmem, hnd⟩
  · intro id hmem
    unfold requeueJob
    cases lookupJob s.jobs id with
    | none => exact hnd
    | some j =>
      dsimp only
      exact List.nodup_cons.mpr ⟨hmem, hnd⟩

/-- Witness for C2 (amended) at a concrete two-job store. -/
theorem queue_discipline_witness :
    twoStore.queue = ["b"] ++ ["a"] ∧
    getQueuedJob twoStore = (some "a", { twoStore with queue := ["b"] }) ∧
    twoStore.queue.Nodup ∧
    (getQueuedJob twoStore).2.queue.Nodup ∧
    drainQueue twoStore = ["a", "b"] :=
  ⟨by decide, (queue_discipline twoStore).2.1 ["b"] "a" (by decide), by decide,
    ((queue_discipline twoStore).2.2.2.2.2.2.2.2 (by decide)).1,
    by decide⟩

/-- Counterexample for C2 as stated: requeuing the still-queued job `"j1"`
pushes a second occurrence of its id onto the work queue. -/
theorem requeue_duplicate_counterexample :
    dupStore.queue = ["j1", "j1"] ∧ dupStore.queue.count "j1" = 2 := by
  refine ⟨by decide, by decide⟩

/-- C9 (code bug): with jobs `"a"` then `"b"` created in that order,
`getAllJobs` returns them oldest first — the trailing `reverse()` contradicts
the function's own `// Most recent first` comment and the spec. -/
theorem getAllJobs_order_bug :
    (getAllJobs twoStore 50).map Job.job_id = ["a", "b"] ∧
    (getAllJobs twoStore 50).map Job.created_at = [0, 1] ∧
    ¬((getAllJobs twoStore 50).map Job.job_id = ["b", "a"]) := by
  refine ⟨by decide, by decide, by decide⟩

/-! ## Aggregate statistics -/

theorem statsStep_total (a : Stats) (j : Job) : (statsStep a j).total = a.total := by
  unfold statsStep
  dsimp only
  split_ifs <;> rfl

theorem foldl_statsStep : ∀ (L : List Job) (acc : Stats),
    L.foldl statsStep acc =
      { total := acc.total,
        queued := acc.queued + L.countP (fun j => j.status == "queued"),
        running := acc.running + L.countP (fun j => j.status == "running"),
        completed := acc.completed + L.countP (fun j => j.status == "completed"),
        failed := acc.failed + L.countP (fun j => j.status == "failed"),
        cancelled := acc.cancelled + L.countP (fun j => j.status == "cancelled"),
        total_scraped := acc.total_scraped + (L.map (fun j => j.progress.scraped)).sum,
        total_analyzed := acc.total_analyzed + (L.map (fun j => j.progress.analyzed)).sum,
        total_inserted := acc.total_inserted + (L.map (fun j => j.progress.inserted)).sum,
        total_pending := acc.total_pending + (L.map (fun j => j.progress.pending)).sum,
        total_failed := acc.total_failed + (L.map (fun j => j.progress.failed)).sum } := by
  intro L
  induction L with
  | nil => intro acc; simp [List.countP_nil]
  | cons j L ih =>
    intro acc
    rw [List.foldl_cons, ih]
    unfold statsStep
    dsimp only
    split_ifs <;>
      simp [List.countP_cons, Stats.mk.injEq, beq_iff_eq, *] <;>
      omega

/-- C8 (amended): `getStats` returns per-status counts, the job total and the
summed progress counters over the jobs read through `getAllJobs()` — whose
default `limit` is 50, so the aggregation covers the 50 most recently created
jobs, matching the specified all-jobs aggregate exactly when at most 50 jobs
are known; an unreachable store yields the all-zero record. -/
theorem getStats_spec (conn : Bool) (s : Store) :
    (conn = false → getStatsOp conn s = zeroStats) ∧
    (getStatsOp true emptyStore = zeroStats) ∧
    (s.jobsList.length ≤ 50 → getStatsOp true s = specStats s) := by
  refine ⟨fun hc => by rw [hc]; rfl, by decide, fun hlen => ?_⟩
  show getStats s = specStats s
  unfold getStats
  have hall : getAllJobs s 50 = (allJobs s).reverse := by
    unfold getAllJobs allJobs
    rw [List.take_of_length_le hlen]
  rw [hall, foldl_statsStep]
  unfold specStats zeroStats
  simp [Stats.mk.injEq, List.countP_eq_length_filter, List.sum_reverse]

/-- Witness for C8 (amended) at the two-job store and the disconnected
store. -/
theorem getStats_spec_witness :
    (false = false → getStatsOp false twoStore = zeroStats) ∧
    (twoStore.jobsList.length ≤ 50 ∧ getStatsOp true twoStore = specStats twoStore) :=
  ⟨(getStats_spec false twoStore).1,
    ⟨by decide, (getStats_spec true twoStore).2.2 (by decide)⟩⟩

set_option maxHeartbeats 4000000 in
/-- Counterexample for C8 as stated: with 51 known jobs, `getStats` reads
only the 50 most recent ones (`getAllJobs()` default limit), so the counts
disagree with the specified aggregate over all known jobs. -/
theorem getStats_limit_counterexample :
    (getStats bigStore).total = 50 ∧ (specStats bigStore).total = 51 ∧
    getStats bigStore ≠ specStats bigStore := by
  have h1 : (getStats bigStore).total = 50 := by decide
  have h2 : (specStats bigStore).total = 51 := by decide
  refine ⟨h1, h2, fun h => ?_⟩
  rw [h, h2] at h1
  exact absurd h1 (by decide)
